import Mathlib

/-!
Shallow embedding of the ironDHCP lease store, IP allocator, DHCP REQUEST
handler, lease cache and GitOps reservation sync, together with proofs about
the claims of the specification.

Conventions of the embedding:
* IPv4 addresses are modelled as their 32-bit numeric value (`Nat`); the
  Postgres `INET` ordering used by the SQL queries coincides with the numeric
  order for IPv4.
* MAC addresses and subnet CIDRs are modelled as their canonical text form
  (`String`), which is how the Go code compares them (`mac.String()`,
  `subnet.String()`) and how the SQL queries receive them.
* Wire byte strings (hostname, client id, vendor class, user class) are
  modelled as `List Nat` of byte values, since they may be invalid UTF-8.
* Timestamps are `Nat`.  Go's repeated `time.Now()` calls inside one
  operation are modelled by a single explicit `now` parameter.
* The database is modelled as a `Store` holding the list of lease rows and
  reservation rows.  SQL `UPDATE` statements become `List.map`; the
  `BEFORE UPDATE` trigger of migration 001 that sets `updated_at = NOW()` is
  modelled by setting `updatedAt := now` on every updated row.  The schema
  constraint `UNIQUE(ip, subnet)` on `leases` makes `INSERT` fail whenever a
  row (of any state) with the same `(ip, subnet)` exists, so the embedding of
  `CreateLease` returns `none` in that case.
* `ORDER BY ... LIMIT 1` with an unspecified tie order is determinized by a
  fold preferring the earlier row, and `ORDER BY expires_at ASC` by a stable
  insertion sort.
-/

namespace IronDHCP

/-- Byte strings coming off the wire. -/
abbrev Bytes := List Nat

/-- Lease states, from `internal/storage/models.go`. -/
inductive LeaseState where
  | active
  | expired
  | released
  | declined
deriving DecidableEq, Repr

/-- A row of the `leases` table (`internal/storage/models.go`, `Lease`). -/
structure Lease where
  id : Nat
  ip : Nat
  mac : String
  hostname : Bytes
  subnet : String
  issuedAt : Nat
  expiresAt : Nat
  lastSeen : Nat
  state : LeaseState
  clientId : Bytes
  vendorClass : Bytes
  userClass : Bytes
  allocatedBy : String
  createdAt : Nat
  updatedAt : Nat
deriving DecidableEq, Repr

/-- `Lease.IsActive` from `internal/storage/models.go`: state is `active` and
`expires_at` is strictly after `now`. -/
def Lease.IsActive (l : Lease) (now : Nat) : Prop :=
  l.state = LeaseState.active ∧ now < l.expiresAt

instance (l : Lease) (now : Nat) : Decidable (l.IsActive now) := by
  unfold Lease.IsActive; infer_instance

/-- A row of the `reservations` table (`internal/storage/models.go`,
`Reservation`). -/
structure Reservation where
  id : Nat
  mac : String
  ip : Nat
  hostname : Bytes
  subnet : String
  description : String
  tftpServer : String
  bootFilename : String
deriving DecidableEq, Repr

/-- The lease/reservation database.  `nextId` models the `BIGSERIAL`
primary-key sequence of the `leases` table. -/
structure Store where
  leases : List Lease
  reservations : List Reservation
  nextId : Nat
deriving DecidableEq, Repr

/-- Determinization of `ORDER BY expires_at DESC LIMIT 1`: the row with the
largest `expires_at` (earlier row preferred on ties). -/
def pickLatest : List Lease → Option Lease
  | [] => none
  | l :: ls =>
    match pickLatest ls with
    | none => some l
    | some b => if b.expiresAt > l.expiresAt then some b else some l

/-- `Store.GetLeaseByMAC`: `SELECT ... WHERE mac = $1 AND subnet = $2 AND
state = 'active' ORDER BY expires_at DESC LIMIT 1`. -/
def Store.GetLeaseByMAC (st : Store) (mac subnet : String) : Option Lease :=
  pickLatest (st.leases.filter (fun l =>
    decide (l.mac = mac ∧ l.subnet = subnet ∧ l.state = LeaseState.active)))

/-- `Store.GetLeaseByIP`: `SELECT ... WHERE ip = $1 AND subnet = $2 ORDER BY
expires_at DESC LIMIT 1` (any state). -/
def Store.GetLeaseByIP (st : Store) (ip : Nat) (subnet : String) : Option Lease :=
  pickLatest (st.leases.filter (fun l => decide (l.ip = ip ∧ l.subnet = subnet)))

/-- `Store.CreateLease`: `INSERT INTO leases ... RETURNING id, created_at,
updated_at`.  The insert violates the schema constraint
`unique_ip_per_subnet UNIQUE(ip, subnet)` whenever any row (of any state)
with the same `(ip, subnet)` exists, in which case it fails (`none`).
On success it returns the new store and the created row (the Go code writes
the returned `id`, `created_at`, `updated_at` back into the passed struct). -/
def Store.CreateLease (st : Store) (l : Lease) (now : Nat) : Option (Store × Lease) :=
  if st.leases.any (fun r => decide (r.ip = l.ip ∧ r.subnet = l.subnet)) then
    none
  else
    let row := { l with id := st.nextId, createdAt := now, updatedAt := now }
    some ({ st with leases := st.leases ++ [row], nextId := st.nextId + 1 }, row)

/-- `Store.UpdateLease`: `UPDATE leases SET hostname, issued_at, expires_at,
last_seen, state, client_id, vendor_class, user_class, allocated_by WHERE
id = $10`.  Note that `ip`, `mac`, `subnet` are not among the updated
columns.  The update trigger touches `updated_at`. -/
def Store.UpdateLease (st : Store) (l : Lease) (now : Nat) : Store :=
  { st with leases := st.leases.map (fun r =>
      if r.id = l.id then
        { r with hostname := l.hostname, issuedAt := l.issuedAt,
                 expiresAt := l.expiresAt, lastSeen := l.lastSeen,
                 state := l.state, clientId := l.clientId,
                 vendorClass := l.vendorClass, userClass := l.userClass,
                 allocatedBy := l.allocatedBy, updatedAt := now }
      else r) }

/-- `Store.RenewLease`: `UPDATE leases SET expires_at = $1, last_seen = $2,
state = 'active' WHERE id = $3` (no guard on the current state). -/
def Store.RenewLease (st : Store) (leaseID expiresAt now : Nat) : Store :=
  { st with leases := st.leases.map (fun r =>
      if r.id = leaseID then
        { r with expiresAt := expiresAt, lastSeen := now,
                 state := LeaseState.active, updatedAt := now }
      else r) }

/-- `Store.ReleaseLease`: `UPDATE leases SET state = 'released', last_seen =
$1 WHERE ip = $2 AND subnet = $3` (no guard on the current state). -/
def Store.ReleaseLease (st : Store) (ip : Nat) (subnet : String) (now : Nat) : Store :=
  { st with leases := st.leases.map (fun r =>
      if r.ip = ip ∧ r.subnet = subnet then
        { r with state := LeaseState.released, lastSeen := now, updatedAt := now }
      else r) }

/-- `Store.DeclineLease`: `UPDATE leases SET state = 'declined', last_seen =
$1 WHERE ip = $2 AND subnet = $3` (no guard on the current state). -/
def Store.DeclineLease (st : Store) (ip : Nat) (subnet : String) (now : Nat) : Store :=
  { st with leases := st.leases.map (fun r =>
      if r.ip = ip ∧ r.subnet = subnet then
        { r with state := LeaseState.declined, lastSeen := now, updatedAt := now }
      else r) }

/-- The row selection of `Store.GetExpiredLeases`. -/
def expiredQuery (subnet : String) (rangeStart rangeEnd : Nat) (l : Lease) : Prop :=
  l.subnet = subnet ∧ rangeStart ≤ l.ip ∧ l.ip ≤ rangeEnd ∧
    (l.state = LeaseState.expired ∨ l.state = LeaseState.released)

instance (subnet : String) (s e : Nat) (l : Lease) :
    Decidable (expiredQuery subnet s e l) := by
  unfold expiredQuery; infer_instance

/-- Ascending ordering on `expires_at`. -/
def leaseExpLE (a b : Lease) : Prop := a.expiresAt ≤ b.expiresAt

instance : DecidableRel leaseExpLE := fun a b => Nat.decLe a.expiresAt b.expiresAt

/-- `Store.GetExpiredLeases`: `SELECT ... WHERE subnet = $1 AND ip >= $2 AND
ip <= $3 AND state IN ('expired', 'released') ORDER BY expires_at ASC
LIMIT $4`. -/
def Store.GetExpiredLeases (st : Store) (subnet : String)
    (rangeStart rangeEnd limit : Nat) : List Lease :=
  (List.insertionSort leaseExpLE
    (st.leases.filter (fun l => decide (expiredQuery subnet rangeStart rangeEnd l)))).take limit

/-- `Store.ExpireOldLeases`: `UPDATE leases SET state = 'expired' WHERE
state = 'active' AND expires_at < $1`; returns the affected row count. -/
def Store.ExpireOldLeases (st : Store) (now : Nat) : Store × Nat :=
  ({ st with leases := st.leases.map (fun r =>
      if r.state = LeaseState.active ∧ r.expiresAt < now then
        { r with state := LeaseState.expired, updatedAt := now }
      else r) },
   st.leases.countP (fun r => decide (r.state = LeaseState.active ∧ r.expiresAt < now)))

/-- `Store.GetReservationByMAC`: `SELECT ... WHERE mac = $1` (MAC is unique
in the schema, so at most one row matches). -/
def Store.GetReservationByMAC (st : Store) (mac : String) : Option Reservation :=
  (st.reservations.filter (fun r => decide (r.mac = mac))).head?

/-- `Store.GetReservationByIP`: `SELECT ... WHERE ip = $1 AND subnet = $2`. -/
def Store.GetReservationByIP (st : Store) (ip : Nat) (subnet : String) : Option Reservation :=
  (st.reservations.filter (fun r => decide (r.ip = ip ∧ r.subnet = subnet))).head?

/-! String hygiene (`sanitizeUTF8` in the allocator file).  Go's
`utf8.ValidString` together with the `for _, r := range s` decoding is
modelled by a one-rune step function and a fuel-indexed decoder (fuel =
byte length, which always suffices since each step consumes at least one
byte). -/

/-- Accepted range for the first continuation byte of a three-byte
sequence, per Go's `unicode/utf8` acceptance table (rejecting overlong
encodings and surrogates). -/
def cont2Range (b b1 : Nat) : Prop :=
  if b = 0xE0 then 0xA0 ≤ b1 ∧ b1 ≤ 0xBF
  else if b = 0xED then 0x80 ≤ b1 ∧ b1 ≤ 0x9F
  else 0x80 ≤ b1 ∧ b1 ≤ 0xBF

instance (b b1 : Nat) : Decidable (cont2Range b b1) := by
  unfold cont2Range; infer_instance

/-- Accepted range for the first continuation byte of a four-byte sequence,
per Go's `unicode/utf8` acceptance table (rejecting overlong encodings and
code points above `U+10FFFF`). -/
def cont3Range (b b1 : Nat) : Prop :=
  if b = 0xF0 then 0x90 ≤ b1 ∧ b1 ≤ 0xBF
  else if b = 0xF4 then 0x80 ≤ b1 ∧ b1 ≤ 0x8F
  else 0x80 ≤ b1 ∧ b1 ≤ 0xBF

instance (b b1 : Nat) : Decidable (cont3Range b b1) := by
  unfold cont3Range; infer_instance

/-- Decode one UTF-8 rune from the front of a byte string, following the
acceptance ranges of Go's `unicode/utf8` package. -/
def utf8Step : Bytes → Option (Nat × Bytes)
  | [] => none
  | b :: rest =>
    if b < 0x80 then some (b, rest)
    else if 0xC2 ≤ b ∧ b ≤ 0xDF then
      match rest with
      | b1 :: r1 =>
        if 0x80 ≤ b1 ∧ b1 ≤ 0xBF then
          some ((b - 0xC0) * 0x40 + (b1 - 0x80), r1)
        else none
      | [] => none
    else if 0xE0 ≤ b ∧ b ≤ 0xEF then
      match rest with
      | b1 :: b2 :: r2 =>
        if cont2Range b b1 ∧ 0x80 ≤ b2 ∧ b2 ≤ 0xBF then
          some ((b - 0xE0) * 0x1000 + (b1 - 0x80) * 0x40 + (b2 - 0x80), r2)
        else none
      | [] => none
      | [_] => none
    else if 0xF0 ≤ b ∧ b ≤ 0xF4 then
      match rest with
      | b1 :: b2 :: b3 :: r3 =>
        if cont3Range b b1 ∧ 0x80 ≤ b2 ∧ b2 ≤ 0xBF ∧
            0x80 ≤ b3 ∧ b3 ≤ 0xBF then
          some ((b - 0xF0) * 0x40000 + (b1 - 0x80) * 0x1000 +
                (b2 - 0x80) * 0x40 + (b3 - 0x80), r3)
        else none
      | [] => none
      | [_] => none
      | [_, _] => none
    else none

/-- Fuel-indexed full decoder. -/
def decodeUtf8Fuel : Nat → Bytes → Option (List Nat)
  | _, [] => some []
  | 0, _ :: _ => none
  | fuel + 1, b :: rest =>
    match utf8Step (b :: rest) with
    | none => none
    | some (r, rest2) => (decodeUtf8Fuel fuel rest2).map (fun rs => r :: rs)

/-- Decode a byte string into its runes; `none` exactly when the bytes are
not well-formed UTF-8 (Go's `utf8.ValidString` returning false). -/
def decodeUtf8 (s : Bytes) : Option (List Nat) := decodeUtf8Fuel s.length s

/-- Lowercase hexadecimal digit of a nibble, as a byte. -/
def hexDigit (n : Nat) : Nat := if n < 10 then 48 + n else 87 + n

/-- `hex.EncodeToString`: two lowercase hex digits per byte. -/
def hexEncode (s : Bytes) : Bytes :=
  s.foldr (fun b acc => hexDigit (b / 16) :: hexDigit (b % 16) :: acc) []

/-- The bytes of the `"hex:"` marker. -/
def hexMark : Bytes := [104, 101, 120, 58]

/-- `sanitizeUTF8` from the allocator file: empty strings pass through;
invalid UTF-8, or any rune below 32 other than 9 (TAB), 10 (LF), 13 (CR),
causes the raw bytes to be hex-encoded behind a `"hex:"` marker. -/
def sanitizeUTF8 (s : Bytes) : Bytes :=
  if s = [] then s
  else
    match decodeUtf8 s with
    | none => hexMark ++ hexEncode s
    | some runes =>
      if runes.any (fun r => decide (r < 32 ∧ r ≠ 9 ∧ r ≠ 10 ∧ r ≠ 13)) then
        hexMark ++ hexEncode s
      else s

/-! The allocator (`internal/dhcp/allocator.go`).  Pool ranges are modelled
post-parse: the source stores dotted-quad strings and converts them with
`net.ParseIP(..).To4()` and `binary.BigEndian.Uint32`; the model carries the
resulting 32-bit numeric values directly.  `rand.Shuffle` is modelled by an
arbitrary permutation parameter `perm`; database advisory locks serialize
the closures, which in this sequential model simply run. -/

/-- A pool of `AllocationRequest.Pools` (parsed range bounds). -/
structure PoolConfig where
  rangeStart : Nat
  rangeEnd : Nat
deriving DecidableEq, Repr

/-- `AllocationRequest` from the allocator file. -/
structure AllocationRequest where
  mac : String
  hostname : Bytes
  subnet : String
  pools : List PoolConfig
  leaseDuration : Nat
  clientId : Bytes
  vendorClass : Bytes
  userClass : Bytes
deriving Repr

/-- The lease struct the allocator builds before `CreateLease` fills in
`id`, `created_at`, `updated_at` (zero-valued here as in the Go struct
literal). -/
def newLeaseFor (req : AllocationRequest) (ip : Nat) (serverID : String)
    (now : Nat) : Lease :=
  { id := 0, ip := ip, mac := req.mac, hostname := sanitizeUTF8 req.hostname,
    subnet := req.subnet, issuedAt := now, expiresAt := now + req.leaseDuration,
    lastSeen := now, state := LeaseState.active,
    clientId := sanitizeUTF8 req.clientId,
    vendorClass := sanitizeUTF8 req.vendorClass,
    userClass := sanitizeUTF8 req.userClass,
    allocatedBy := serverID, createdAt := 0, updatedAt := 0 }

/-- The advisory-lock closure of the LRU loop in `allocateFromPool`: fail if
the IP has an unexpired active lease, fail if it is reserved for another
MAC, otherwise insert a fresh active row. -/
def tryClaimExpired (st : Store) (req : AllocationRequest) (serverID : String)
    (candIP now : Nat) : Option (Store × Lease) :=
  let claimed : Bool :=
    match st.GetLeaseByIP candIP req.subnet with
    | some e => decide (e.state = LeaseState.active ∧ now < e.expiresAt)
    | none => false
  if claimed then none
  else
    let reserved : Bool :=
      match st.GetReservationByIP candIP req.subnet with
      | some r => decide (r.mac ≠ req.mac)
      | none => false
    if reserved then none
    else st.CreateLease (newLeaseFor req candIP serverID now) now

/-- The LRU candidate loop of `allocateFromPool`.  `first` is
`expiredLeases[0]`: on any success the Go code mutates and returns element 0
of the candidate slice, not the candidate that succeeded. -/
def lruAttempts (st : Store) (req : AllocationRequest) (serverID : String)
    (now : Nat) (first : Lease) : List Lease → Option (Store × Lease)
  | [] => none
  | cand :: rest =>
    match tryClaimExpired st req serverID cand.ip now with
    | some (st2, _created) =>
      some (st2,
        { first with
          mac := req.mac, hostname := sanitizeUTF8 req.hostname,
          issuedAt := now, expiresAt := now + req.leaseDuration, lastSeen := now,
          state := LeaseState.active, clientId := sanitizeUTF8 req.clientId,
          vendorClass := sanitizeUTF8 req.vendorClass,
          userClass := sanitizeUTF8 req.userClass })
    | none => lruAttempts st req serverID now first rest

/-- The IP enumeration loop of `findNeverUsedIP`:
`for ipInt := startInt; ipInt <= endInt; ipInt++` over `uint32`, modelled
with explicit fuel and the increment wrapping modulo `2^32`.  `none` means
the fuel ran out before the guard failed. -/
def genIPsLoop : Nat → Nat → Nat → Option (List Nat)
  | 0, _, _ => none
  | fuel + 1, ipInt, endInt =>
    if ipInt ≤ endInt then
      (genIPsLoop fuel ((ipInt + 1) % 2 ^ 32) endInt).map (fun ips => ipInt :: ips)
    else some []

/-- The candidate list `ips` built by `findNeverUsedIP` before shuffling.
The fuel `e + 2 - s` is exactly enough for the loop whenever it terminates,
so `none` holds exactly on the non-terminating inputs. -/
def genIPs (s e : Nat) : Option (List Nat) := genIPsLoop (e + 2 - s) s e

/-- Termination of the Go enumeration loop started at `s` with bound `e`:
some amount of fuel lets the guard fail. -/
def loopTerminates (s e : Nat) : Prop := ∃ fuel ips, genIPsLoop fuel s e = some ips

/-- The per-IP attempt loop of `findNeverUsedIP`: skip IPs that have any
lease row, skip IPs reserved for another MAC, insert a fresh active row
otherwise; an insert failure moves on to the next IP. -/
def tryNeverUsed (st : Store) (req : AllocationRequest) (serverID : String)
    (now : Nat) : List Nat → Option (Store × Lease)
  | [] => none
  | ip :: rest =>
    let inUse : Bool :=
      match st.GetLeaseByIP ip req.subnet with
      | some _ => true
      | none => false
    if inUse then tryNeverUsed st req serverID now rest
    else
      let reserved : Bool :=
        match st.GetReservationByIP ip req.subnet with
        | some r => decide (r.mac ≠ req.mac)
        | none => false
      if reserved then tryNeverUsed st req serverID now rest
      else
        match st.CreateLease (newLeaseFor req ip serverID now) now with
        | some (st2, row) => some (st2, row)
        | none => tryNeverUsed st req serverID now rest

/-- `findNeverUsedIP`: enumerate the pool, shuffle (`perm`), then attempt
each IP in turn.  A non-terminating enumeration is modelled as `none`. -/
def findNeverUsedIP (st : Store) (req : AllocationRequest) (pool : PoolConfig)
    (serverID : String) (perm : List Nat → List Nat) (now : Nat) :
    Option (Store × Lease) :=
  match genIPs pool.rangeStart pool.rangeEnd with
  | none => none
  | some ips => tryNeverUsed st req serverID now (perm ips)

/-- `allocateFromPool`: fetch up to 10 LRU candidates, try to claim each,
fall back to never-used IPs. -/
def allocateFromPool (st : Store) (req : AllocationRequest) (pool : PoolConfig)
    (serverID : String) (perm : List Nat → List Nat) (now : Nat) :
    Option (Store × Lease) :=
  let cands := st.GetExpiredLeases req.subnet pool.rangeStart pool.rangeEnd 10
  match cands with
  | [] => findNeverUsedIP st req pool serverID perm now
  | first :: rest =>
    match lruAttempts st req serverID now first (first :: rest) with
    | some r => some r
    | none => findNeverUsedIP st req pool serverID perm now

/-- `createLeaseForReservation`: under the per-IP lock, update the existing
row for the reserved IP (note: `UpdateLease` does not write the `mac`
column) or insert a fresh row carrying the reservation's hostname. -/
def createLeaseForReservation (st : Store) (req : AllocationRequest)
    (resv : Reservation) (serverID : String) (now : Nat) :
    Option (Store × Lease) :=
  match st.GetLeaseByIP resv.ip req.subnet with
  | some existing =>
    let upd := { existing with
                 mac := req.mac,
                 hostname := sanitizeUTF8 req.hostname,
                 issuedAt := now, expiresAt := now + req.leaseDuration,
                 lastSeen := now, state := LeaseState.active,
                 clientId := sanitizeUTF8 req.clientId,
                 vendorClass := sanitizeUTF8 req.vendorClass,
                 userClass := sanitizeUTF8 req.userClass,
                 allocatedBy := serverID }
    some (st.UpdateLease upd now, upd)
  | none =>
    st.CreateLease
      { newLeaseFor req resv.ip serverID now with
        hostname := sanitizeUTF8 resv.hostname } now

/-- The pool loop of step 3 of `AllocateIP` (a failed pool falls through to
the next). -/
def allocatePools (st : Store) (req : AllocationRequest) (serverID : String)
    (perm : List Nat → List Nat) (now : Nat) : List PoolConfig → Option (Store × Lease)
  | [] => none
  | pool :: rest =>
    match allocateFromPool st req pool serverID perm now with
    | some r => some r
    | none => allocatePools st req serverID perm now rest

/-- Steps 2 and 3 of the allocation ladder: static reservation, then the
pools. -/
def allocateLadderTail (st : Store) (req : AllocationRequest)
    (serverID : String) (perm : List Nat → List Nat) (now : Nat) :
    Option (Store × Lease) :=
  match st.GetReservationByMAC req.mac with
  | some resv =>
    if resv.subnet = req.subnet then
      createLeaseForReservation st req resv serverID now
    else allocatePools st req serverID perm now req.pools
  | none => allocatePools st req serverID perm now req.pools

/-- `AllocateIP`: the full priority ladder.  Step 1 returns the stored lease
for the MAC only when `lease.IsActive()` holds. -/
def AllocateIP (st : Store) (req : AllocationRequest) (serverID : String)
    (perm : List Nat → List Nat) (now : Nat) : Option (Store × Lease) :=
  match st.GetLeaseByMAC req.mac req.subnet with
  | some lease =>
    if lease.IsActive now then some (st, lease)
    else allocateLadderTail st req serverID perm now
  | none => allocateLadderTail st req serverID perm now

/-! The REQUEST handler (`internal/dhcp/handler.go`, `handleRequest`), from
the point where the requested IP has been determined and is non-zero. -/

/-- A DHCP reply relevant to the REQUEST path. -/
inductive Reply where
  | ack (yiaddr : Nat)
  | nak (msg : String)
deriving DecidableEq, Repr

/-- `Allocator.RenewLease`: under the per-IP lock, look the row up by IP,
require the stored MAC to equal the requester's, then
`Store.RenewLease(id, now + duration)`. -/
def allocRenewLease (st : Store) (mac : String) (ip : Nat) (subnet : String)
    (duration now : Nat) : Option Store :=
  match st.GetLeaseByIP ip subnet with
  | none => none
  | some lease =>
    if lease.mac ≠ mac then none
    else some (st.RenewLease lease.id (now + duration) now)

/-- `handleRequest` after the requested IP is fixed: an existing row for the
requested IP is renewed (MAC match) or NAKed (mismatch); an absent row runs
the full allocation ladder.  In every ACK the handler sets
`resp.YourIPAddr = requestedIP`. -/
def handleRequest (st : Store) (req : AllocationRequest) (requestedIP : Nat)
    (serverID : String) (perm : List Nat → List Nat) (now : Nat) :
    Option (Reply × Store) :=
  match st.GetLeaseByIP requestedIP req.subnet with
  | some lease =>
    if lease.mac ≠ req.mac then
      some (Reply.nak "IP already allocated to another client", st)
    else
      match allocRenewLease st req.mac requestedIP req.subnet req.leaseDuration now with
      | some st2 => some (Reply.ack requestedIP, st2)
      | none => none
  | none =>
    match AllocateIP st req serverID perm now with
    | some (st2, _lease) => some (Reply.ack requestedIP, st2)
    | none => none

/-! The per-node LRU lease cache (`LeaseCache` in the storage package).
A Go `*list.Element` is modelled by a numeric element id: `heap` maps each
id ever allocated to its (mutable) entry cell — the cell persists after
removal from the list, as a Go pointer does — `lruOrder` is the
`container/list` order (front = most recently used), and `byMAC`/`byIP`
are the two maps from key strings to element ids. -/

/-- `cacheEntry`: the key cell (either a MAC or an IP string) plus the
cached lease. -/
structure CEntry where
  key : String
  lease : Lease
deriving DecidableEq, Repr

/-- The cache state. -/
structure LeaseCache where
  maxSize : Nat
  heap : List (Nat × CEntry)
  lruOrder : List Nat
  byMAC : List (String × Nat)
  byIP : List (String × Nat)
  nextEid : Nat
  hits : Nat
  misses : Nat
  evictions : Nat
deriving DecidableEq, Repr

/-- The string key of an IP (`ip.String()`; injective on 32-bit values, so
the decimal rendering is an adequate model). -/
def ipKey (ip : Nat) : String := toString ip

/-- Go map lookup. -/
def alookup (m : List (String × Nat)) (k : String) : Option Nat :=
  (m.find? (fun p => p.1 == k)).map (fun p => p.2)

/-- Go map `delete`. -/
def aerase (m : List (String × Nat)) (k : String) : List (String × Nat) :=
  m.filter (fun p => ¬ p.1 = k)

/-- Go map assignment. -/
def ainsert (m : List (String × Nat)) (k : String) (v : Nat) : List (String × Nat) :=
  if m.any (fun p => p.1 == k) then
    m.map (fun p => if p.1 = k then (k, v) else p)
  else m ++ [(k, v)]

/-- Dereference an element id. -/
def hlookup (h : List (Nat × CEntry)) (eid : Nat) : Option CEntry :=
  (h.find? (fun p => p.1 == eid)).map (fun p => p.2)

/-- Mutate the entry cell of an element id. -/
def hupdate (h : List (Nat × CEntry)) (eid : Nat) (f : CEntry → CEntry) :
    List (Nat × CEntry) :=
  h.map (fun p => if p.1 = eid then (p.1, f p.2) else p)

/-- `list.MoveToFront`: a no-op when the element is no longer in the list. -/
def moveToFront (order : List Nat) (eid : Nat) : List Nat :=
  if eid ∈ order then eid :: order.filter (fun e => e ≠ eid) else order

/-- `NewLeaseCache`: a non-positive size defaults to 10000. -/
def NewLeaseCache (maxSize : Nat) : LeaseCache :=
  { maxSize := if maxSize = 0 then 10000 else maxSize,
    heap := [], lruOrder := [], byMAC := [], byIP := [],
    nextEid := 0, hits := 0, misses := 0, evictions := 0 }

/-- `LeaseCache.removeElement`: unlink from the LRU list and delete the two
index keys derived from the entry's current lease. -/
def LeaseCache.removeElement (c : LeaseCache) (eid : Nat) : LeaseCache :=
  match hlookup c.heap eid with
  | some en =>
    { c with lruOrder := c.lruOrder.filter (fun e => e ≠ eid),
             byMAC := aerase c.byMAC en.lease.mac,
             byIP := aerase c.byIP (ipKey en.lease.ip) }
  | none => c

/-- `LeaseCache.evictOldest`: remove the back of the LRU list. -/
def LeaseCache.evictOldest (c : LeaseCache) : LeaseCache :=
  match c.lruOrder.getLast? with
  | some eid => { c.removeElement eid with evictions := c.evictions + 1 }
  | none => c

/-- `LeaseCache.Put`.  On the update path the entry's lease is replaced and,
when `entry.key` differs from the IP key, `byIP[entry.key]` is deleted and
`byIP[ipKey]` set; note that a freshly inserted entry gets `key := macKey`,
exactly as the Go struct literal does. -/
def LeaseCache.Put (c : LeaseCache) (l : Lease) : LeaseCache :=
  let macKey := l.mac
  let ipk := ipKey l.ip
  match alookup c.byMAC macKey with
  | some eid =>
    let c1 := { c with
                heap := hupdate c.heap eid (fun en => { en with lease := l }),
                lruOrder := moveToFront c.lruOrder eid }
    match hlookup c1.heap eid with
    | some en =>
      if en.key ≠ ipk then
        { c1 with
          byIP := ainsert (aerase c1.byIP en.key) ipk eid,
          heap := hupdate c1.heap eid (fun e2 => { e2 with key := ipk }) }
      else c1
    | none => c1
  | none =>
    let eid := c.nextEid
    let en : CEntry := { key := macKey, lease := l }
    let c1 := { c with
                heap := c.heap ++ [(eid, en)],
                lruOrder := eid :: c.lruOrder,
                byMAC := ainsert c.byMAC macKey eid,
                byIP := ainsert c.byIP ipk eid,
                nextEid := eid + 1 }
    if c1.lruOrder.length > c1.maxSize then c1.evictOldest else c1

/-- `LeaseCache.GetByIP`: index lookup, move-to-front, hit/miss counters. -/
def LeaseCache.GetByIP (c : LeaseCache) (ip : Nat) : Option Lease × LeaseCache :=
  match alookup c.byIP (ipKey ip) with
  | none => (none, { c with misses := c.misses + 1 })
  | some eid =>
    match hlookup c.heap eid with
    | some en =>
      (some en.lease,
       { c with lruOrder := moveToFront c.lruOrder eid, hits := c.hits + 1 })
    | none => (none, c)

/-- `LeaseCache.GetByMAC`. -/
def LeaseCache.GetByMAC (c : LeaseCache) (mac : String) : Option Lease × LeaseCache :=
  match alookup c.byMAC mac with
  | none => (none, { c with misses := c.misses + 1 })
  | some eid =>
    match hlookup c.heap eid with
    | some en =>
      (some en.lease,
       { c with lruOrder := moveToFront c.lruOrder eid, hits := c.hits + 1 })
    | none => (none, c)

/-- `LeaseCache.RemoveByIP`. -/
def LeaseCache.RemoveByIP (c : LeaseCache) (ip : Nat) : LeaseCache :=
  match alookup c.byIP (ipKey ip) with
  | some eid => c.removeElement eid
  | none => c

/-! The GitOps reservation sync (`internal/gitops/sync.go`, `applyConfig`).
The reservation table is modelled on its own (`RStore`), with the schema
constraints `mac UNIQUE` and `UNIQUE(ip, subnet)` making inserts and
updates fail (the Go code logs such failures and skips the counter).
`config_reloaded` is recorded after the registered reload callback
succeeds; a failing callback aborts the sync before any change summary is
recorded, so the success path modelled here sets it to `true`. -/

/-- A reservation as it appears in the configuration file (boot options
flattened, `""` when absent, as in `applyConfig`). -/
structure ResCfg where
  mac : String
  ip : Nat
  hostname : Bytes
  description : String
  tftpServer : String
  bootFilename : String
deriving DecidableEq, Repr

/-- A subnet of the configuration, reduced to what `applyConfig` reads. -/
structure SubnetCfg where
  network : String
  reservations : List ResCfg
deriving DecidableEq, Repr

/-- A validated configuration, reduced to what `applyConfig` reads. -/
structure Config where
  subnets : List SubnetCfg
deriving DecidableEq, Repr

/-- The reservation table. -/
structure RStore where
  rows : List Reservation
  nextId : Nat
deriving DecidableEq, Repr

/-- `Store.CreateReservation`: `INSERT INTO reservations ...`; fails on the
schema constraints `mac UNIQUE` and `UNIQUE(ip, subnet)`. -/
def RStore.CreateReservation (s : RStore) (r : Reservation) : Option RStore :=
  if s.rows.any (fun o => decide (o.mac = r.mac ∨ (o.ip = r.ip ∧ o.subnet = r.subnet))) then
    none
  else
    some { rows := s.rows ++ [{ r with id := s.nextId }], nextId := s.nextId + 1 }

/-- `Store.UpdateReservation`: `UPDATE reservations SET ip, hostname,
subnet, description, tftp_server, boot_filename WHERE id = $7` (the MAC
column is not written); fails when the new `(ip, subnet)` collides with a
different row. -/
def RStore.UpdateReservation (s : RStore) (r : Reservation) : Option RStore :=
  if s.rows.any (fun o => decide (o.id ≠ r.id ∧ o.ip = r.ip ∧ o.subnet = r.subnet)) then
    none
  else
    some { s with rows := s.rows.map (fun o =>
      if o.id = r.id then
        { o with ip := r.ip, hostname := r.hostname, subnet := r.subnet,
                 description := r.description, tftpServer := r.tftpServer,
                 bootFilename := r.bootFilename }
      else o) }

/-- `Store.DeleteReservation`: `DELETE FROM reservations WHERE id = $1`. -/
def RStore.DeleteReservation (s : RStore) (id : Nat) : RStore :=
  { s with rows := s.rows.filter (fun o => decide (o.id ≠ id)) }

/-- The change summary recorded in `changes_applied`. -/
structure SyncChanges where
  reservationsAdded : Nat
  reservationsUpdated : Nat
  reservationsDeleted : Nat
  totalSubnets : Nat
  configReloaded : Bool
deriving DecidableEq, Repr

/-- The configuration's reservations in processing order, each with its
subnet's network. -/
def cfgRes (cfg : Config) : List (ResCfg × String) :=
  (cfg.subnets.map (fun s => s.reservations.map (fun r => (r, s.network)))).flatten

/-- The per-field change test of `applyConfig` (the subnet is not
compared). -/
def resChanged (ex : Reservation) (r : ResCfg) : Prop :=
  ex.ip ≠ r.ip ∨ ex.hostname ≠ r.hostname ∨ ex.description ≠ r.description ∨
    ex.tftpServer ≠ r.tftpServer ∨ ex.bootFilename ≠ r.bootFilename

instance (ex : Reservation) (r : ResCfg) : Decidable (resChanged ex r) := by
  unfold resChanged; infer_instance

/-- The row an update writes: the existing row with all config fields (and
the subnet) replaced. -/
def resFields (ex : Reservation) (r : ResCfg) (network : String) : Reservation :=
  { ex with ip := r.ip, hostname := r.hostname, subnet := network,
            description := r.description, tftpServer := r.tftpServer,
            bootFilename := r.bootFilename }

/-- The loop state of `applyConfig`: the remainder of `existingMap`, the
evolving table, and the two counters incremented on successful writes. -/
structure SyncSt where
  pending : List Reservation
  store : RStore
  added : Nat
  updated : Nat
deriving Repr

/-- One iteration of the add/update loop of `applyConfig`. -/
def syncStep (s : SyncSt) (rn : ResCfg × String) : SyncSt :=
  match s.pending.find? (fun ex => ex.mac == rn.1.mac) with
  | some ex =>
    let s2 :=
      if resChanged ex rn.1 then
        match s.store.UpdateReservation (resFields ex rn.1 rn.2) with
        | some st2 => { s with store := st2, updated := s.updated + 1 }
        | none => s
      else s
    { s2 with pending := s2.pending.filter (fun ex2 => ex2.mac ≠ rn.1.mac) }
  | none =>
    let newRes : Reservation :=
      { id := 0, mac := rn.1.mac, ip := rn.1.ip, hostname := rn.1.hostname,
        subnet := rn.2, description := rn.1.description,
        tftpServer := rn.1.tftpServer, bootFilename := rn.1.bootFilename }
    match s.store.CreateReservation newRes with
    | some st2 => { s with store := st2, added := s.added + 1 }
    | none => s

/-- `applyConfig`: diff by MAC (add/update from the config, then delete the
rows left in `existingMap`), and record the change summary. -/
def applyConfig (store0 : RStore) (cfg : Config) : RStore × SyncChanges :=
  let s := (cfgRes cfg).foldl syncStep
    { pending := store0.rows, store := store0, added := 0, updated := 0 }
  let finalStore := s.pending.foldl (fun st ex => st.DeleteReservation ex.id) s.store
  (finalStore,
   { reservationsAdded := s.added, reservationsUpdated := s.updated,
     reservationsDeleted := s.pending.length,
     totalSubnets := cfg.subnets.length,
     configReloaded := true })

/-! ## Theorems about the claims -/

instance : IsTotal Lease leaseExpLE :=
  ⟨fun a b => Nat.le_total a.expiresAt b.expiresAt⟩

instance : IsTrans Lease leaseExpLE :=
  ⟨fun _ _ _ hab hbc => Nat.le_trans hab hbc⟩

theorem getExpiredLeases_mem {st : Store} {subnet : String} {s e n : Nat}
    {l : Lease} (hl : l ∈ st.GetExpiredLeases subnet s e n) :
    expiredQuery subnet s e l := by
  unfold Store.GetExpiredLeases at hl
  have h1 : l ∈ List.insertionSort leaseExpLE
      (st.leases.filter (fun l => decide (expiredQuery subnet s e l))) :=
    List.mem_of_mem_take hl
  have h2 := (List.mem_insertionSort leaseExpLE).mp h1
  have h3 := List.of_mem_filter h2
  exact of_decide_eq_true h3

/-- Claim C4: for every subnet, inclusive range and limit, the query behind
`GetExpiredLeases` returns at most `limit` rows, sorted by ascending
`expires_at`, and every returned row has state `expired` or `released`
(never `active` or `declined`), has its IP inside the inclusive range, and
matches the subnet. -/
theorem C4_getExpiredLeases_contract (st : Store) (subnet : String)
    (s e n : Nat) (l : Lease) (hl : l ∈ st.GetExpiredLeases subnet s e n) :
    (st.GetExpiredLeases subnet s e n).length ≤ n ∧
    List.Sorted leaseExpLE (st.GetExpiredLeases subnet s e n) ∧
    (l.state = LeaseState.expired ∨ l.state = LeaseState.released) ∧
    l.state ≠ LeaseState.active ∧ l.state ≠ LeaseState.declined ∧
    s ≤ l.ip ∧ l.ip ≤ e ∧ l.subnet = subnet := by
  have hq := getExpiredLeases_mem hl
  obtain ⟨hsub, hlo, hhi, hstate⟩ := hq
  refine ⟨?_, ?_, hstate, ?_, ?_, hlo, hhi, hsub⟩
  · exact List.length_take_le n _
  · exact List.Pairwise.sublist (List.take_sublist n _)
      (List.sorted_insertionSort leaseExpLE _)
  · rcases hstate with h | h <;> simp [h]
  · rcases hstate with h | h <;> simp [h]

/-- A concrete expired lease used to witness C4. -/
def leaseW4 : Lease :=
  { id := 1, ip := 3, mac := "aa:bb:cc:dd:ee:04", hostname := [],
    subnet := "192.168.1.0/24", issuedAt := 0, expiresAt := 7, lastSeen := 0,
    state := LeaseState.expired, clientId := [], vendorClass := [],
    userClass := [], allocatedBy := "", createdAt := 0, updatedAt := 0 }

/-- A concrete store used to witness C4. -/
def storeW4 : Store := { leases := [leaseW4], reservations := [], nextId := 2 }

/-- Witness for C4 on a concrete store. -/
theorem C4_witness :
    (storeW4.GetExpiredLeases "192.168.1.0/24" 1 5 2).length ≤ 2 ∧
    List.Sorted leaseExpLE (storeW4.GetExpiredLeases "192.168.1.0/24" 1 5 2) ∧
    (leaseW4.state = LeaseState.expired ∨ leaseW4.state = LeaseState.released) ∧
    leaseW4.state ≠ LeaseState.active ∧ leaseW4.state ≠ LeaseState.declined ∧
    1 ≤ leaseW4.ip ∧ leaseW4.ip ≤ 5 ∧ leaseW4.subnet = "192.168.1.0/24" :=
  C4_getExpiredLeases_contract storeW4 "192.168.1.0/24" 1 5 2 leaseW4 (by decide)

theorem pickLatest_mem : ∀ {ls : List Lease} {l : Lease},
    pickLatest ls = some l → l ∈ ls := by
  intro ls
  induction ls with
  | nil => intro l h; exact absurd h (by simp [pickLatest])
  | cons x xs ih =>
    intro l h
    unfold pickLatest at h
    rcases hx : pickLatest xs with _ | b
    · rw [hx] at h
      simp only [Option.some.injEq] at h
      simp [← h]
    · rw [hx] at h
      dsimp only at h
      by_cases hc : b.expiresAt > x.expiresAt
      · rw [if_pos hc] at h
        simp only [Option.some.injEq] at h
        exact List.mem_cons_of_mem x (ih (by rw [hx, h]))
      · rw [if_neg hc] at h
        simp only [Option.some.injEq] at h
        simp [← h]

theorem getLeaseByMAC_state {st : Store} {mac subnet : String} {l : Lease}
    (h : st.GetLeaseByMAC mac subnet = some l) :
    l.mac = mac ∧ l.subnet = subnet ∧ l.state = LeaseState.active := by
  unfold Store.GetLeaseByMAC at h
  have hmem := pickLatest_mem h
  exact of_decide_eq_true (List.mem_filter.mp hmem).2

/-- Claim C10: step 1 of `AllocateIP` returns the stored lease only when it
is in state `active` with `expires_at` strictly in the future; an active row
whose expiry has passed is treated as absent and the allocator falls through
to reservation/pool allocation (`allocateLadderTail`). -/
theorem C10_allocate_step1 (st : Store) (req : AllocationRequest)
    (serverID : String) (perm : List Nat → List Nat) (now : Nat) (l : Lease)
    (h : st.GetLeaseByMAC req.mac req.subnet = some l) :
    l.state = LeaseState.active ∧
    (now < l.expiresAt →
      AllocateIP st req serverID perm now = some (st, l)) ∧
    (l.expiresAt ≤ now →
      AllocateIP st req serverID perm now =
        allocateLadderTail st req serverID perm now) := by
  have hact := (getLeaseByMAC_state h).2.2
  refine ⟨hact, ?_, ?_⟩
  · intro hfut
    unfold AllocateIP
    rw [h]
    dsimp only
    rw [if_pos ⟨hact, hfut⟩]
  · intro hpast
    unfold AllocateIP
    rw [h]
    dsimp only
    rw [if_neg (fun hc => absurd hc.2 (by omega))]

/-- A stale active lease (expiry in the past) used to witness C10. -/
def leaseW10 : Lease :=
  { id := 1, ip := 9, mac := "aa:bb:cc:dd:ee:10", hostname := [],
    subnet := "192.168.1.0/24", issuedAt := 0, expiresAt := 10, lastSeen := 0,
    state := LeaseState.active, clientId := [], vendorClass := [],
    userClass := [], allocatedBy := "", createdAt := 0, updatedAt := 0 }

/-- A concrete store used to witness C10. -/
def storeW10 : Store := { leases := [leaseW10], reservations := [], nextId := 2 }

/-- A concrete request used to witness C10. -/
def reqW10 : AllocationRequest :=
  { mac := "aa:bb:cc:dd:ee:10", hostname := [], subnet := "192.168.1.0/24",
    pools := [], leaseDuration := 60, clientId := [], vendorClass := [],
    userClass := [] }

/-- Witness for C10: at `now = 5` the row is returned unchanged, at
`now = 10` (expiry passed) the allocator falls through to the ladder
tail. -/
theorem C10_witness :
    AllocateIP storeW10 reqW10 "srv" id 5 = some (storeW10, leaseW10) ∧
    AllocateIP storeW10 reqW10 "srv" id 10 =
      allocateLadderTail storeW10 reqW10 "srv" id 10 :=
  ⟨(C10_allocate_step1 storeW10 reqW10 "srv" id 5 leaseW10 (by decide)).2.1
      (by decide),
   (C10_allocate_step1 storeW10 reqW10 "srv" id 10 leaseW10 (by decide)).2.2
      (by decide)⟩

/-- An active lease used in the C6 counterexample. -/
def leaseX6 : Lease :=
  { id := 1, ip := 10, mac := "aa:bb:cc:dd:ee:06", hostname := [],
    subnet := "192.168.1.0/24", issuedAt := 0, expiresAt := 5, lastSeen := 0,
    state := LeaseState.active, clientId := [], vendorClass := [],
    userClass := [], allocatedBy := "", createdAt := 0, updatedAt := 0 }

/-- The store of the C6 counterexample. -/
def storeX6 : Store := { leases := [leaseX6], reservations := [], nextId := 2 }

/-- Counterexample to claim C6 as stated: a second `release(ip, subnet)`
issued at a later clock does not leave the store unchanged — the unguarded
`UPDATE` matches the already-released row again and re-touches `last_seen`
(and the trigger re-touches `updated_at`). -/
theorem C6_release_not_idempotent_across_clocks :
    (storeX6.ReleaseLease 10 "192.168.1.0/24" 1).ReleaseLease 10 "192.168.1.0/24" 2 ≠
      storeX6.ReleaseLease 10 "192.168.1.0/24" 1 := by decide

/-- Claim C6 (amended): `release(ip, subnet)` is idempotent when both calls
observe the same clock — the second call rewrites the matched rows with
exactly the values they already hold. -/
theorem C6_release_idempotent_same_clock (st : Store) (ip : Nat)
    (subnet : String) (now : Nat) :
    (st.ReleaseLease ip subnet now).ReleaseLease ip subnet now =
      st.ReleaseLease ip subnet now := by
  unfold Store.ReleaseLease
  simp only [List.map_map]
  congr 1
  apply List.map_congr_left
  intro r _hr
  by_cases h : r.ip = ip ∧ r.subnet = subnet
  · simp [Function.comp, h]
  · simp [Function.comp, h]

/-- A declined lease used in the C3 counterexample. -/
def leaseX3 : Lease :=
  { id := 1, ip := 10, mac := "aa:bb:cc:dd:ee:03", hostname := [],
    subnet := "192.168.1.0/24", issuedAt := 0, expiresAt := 5, lastSeen := 0,
    state := LeaseState.declined, clientId := [], vendorClass := [],
    userClass := [], allocatedBy := "", createdAt := 0, updatedAt := 0 }

/-- The store of the C3 counterexample. -/
def storeX3 : Store := { leases := [leaseX3], reservations := [], nextId := 2 }

/-- Counterexample to claim C3 as stated: `release_lease` moves a row that
is in state `declined` (not `active`) to `released`, because its `UPDATE`
has no state guard in the `WHERE` clause. -/
theorem C3_release_moves_declined_row :
    leaseX3.state = LeaseState.declined ∧
    (storeX3.ReleaseLease 10 "192.168.1.0/24" 7).leases =
      [{ leaseX3 with state := LeaseState.released, lastSeen := 7, updatedAt := 7 }] ∧
    LeaseState.declined ≠ LeaseState.active := by decide

/-- Claim C3 (amended): only `expire_old` is state-guarded (it rewrites
exactly the `active` rows past their expiry, to `expired`); `release_lease`
and `decline_lease` rewrite every row matching `(ip, subnet)` regardless of
its current state, and `renew_lease` sets the row with the given id back to
`active` regardless of its current state. -/
theorem C3_transition_characterization :
    (∀ (st : Store) (now : Nat), ∀ l ∈ (st.ExpireOldLeases now).1.leases,
      l ∈ st.leases ∨
        (∃ l0 ∈ st.leases, l0.state = LeaseState.active ∧ l0.expiresAt < now ∧
          l = { l0 with state := LeaseState.expired, updatedAt := now })) ∧
    (∀ (st : Store) (ip : Nat) (subnet : String) (now : Nat),
      ∀ l ∈ st.leases, l.ip = ip → l.subnet = subnet →
        { l with state := LeaseState.released, lastSeen := now, updatedAt := now } ∈
          (st.ReleaseLease ip subnet now).leases) ∧
    (∀ (st : Store) (ip : Nat) (subnet : String) (now : Nat),
      ∀ l ∈ st.leases, l.ip = ip → l.subnet = subnet →
        { l with state := LeaseState.declined, lastSeen := now, updatedAt := now } ∈
          (st.DeclineLease ip subnet now).leases) ∧
    (∀ (st : Store) (leaseID expiresAt now : Nat),
      ∀ l ∈ st.leases, l.id = leaseID →
        { l with expiresAt := expiresAt, lastSeen := now,
                 state := LeaseState.active, updatedAt := now } ∈
          (st.RenewLease leaseID expiresAt now).leases) := by
  refine ⟨?_, ?_, ?_, ?_⟩
  · intro st now l hl
    unfold Store.ExpireOldLeases at hl
    simp only [List.mem_map] at hl
    obtain ⟨l0, hl0, heq⟩ := hl
    by_cases hc : l0.state = LeaseState.active ∧ l0.expiresAt < now
    · right
      exact ⟨l0, hl0, hc.1, hc.2, by rw [← heq, if_pos hc]⟩
    · left
      rw [← heq, if_neg hc]
      exact hl0
  · intro st ip subnet now l hl hip hsub
    unfold Store.ReleaseLease
    have := List.mem_map_of_mem (fun r =>
      if r.ip = ip ∧ r.subnet = subnet then
        { r with state := LeaseState.released, lastSeen := now, updatedAt := now }
      else r) hl
    dsimp only at this
    rw [if_pos ⟨hip, hsub⟩] at this
    exact this
  · intro st ip subnet now l hl hip hsub
    unfold Store.DeclineLease
    have := List.mem_map_of_mem (fun r =>
      if r.ip = ip ∧ r.subnet = subnet then
        { r with state := LeaseState.declined, lastSeen := now, updatedAt := now }
      else r) hl
    dsimp only at this
    rw [if_pos ⟨hip, hsub⟩] at this
    exact this
  · intro st leaseID expiresAt now l hl hid
    unfold Store.RenewLease
    have := List.mem_map_of_mem (fun r =>
      if r.id = leaseID then
        { r with expiresAt := expiresAt, lastSeen := now,
                 state := LeaseState.active, updatedAt := now }
      else r) hl
    dsimp only at this
    rw [if_pos hid] at this
    exact this

/-- Witness for the amended C3 on the concrete declined row: `release`
rewrites it (to `released`), and `renew` would set it back to `active`. -/
theorem C3_witness :
    { leaseX3 with state := LeaseState.released, lastSeen := 7, updatedAt := 7 } ∈
      (storeX3.ReleaseLease 10 "192.168.1.0/24" 7).leases ∧
    { leaseX3 with expiresAt := 99, lastSeen := 8,
                   state := LeaseState.active, updatedAt := 8 } ∈
      (storeX3.RenewLease 1 99 8).leases :=
  ⟨C3_transition_characterization.2.1 storeX3 10 "192.168.1.0/24" 7 leaseX3
      (by decide) rfl rfl,
   C3_transition_characterization.2.2.2 storeX3 1 99 8 leaseX3 (by decide) rfl⟩

theorem genIPsLoop_maxEnd (fuel : Nat) : ∀ ip : Nat, ip < 2 ^ 32 →
    genIPsLoop fuel ip (2 ^ 32 - 1) = none := by
  induction fuel with
  | zero => intro ip _; rfl
  | succ f ih =>
    intro ip hip
    unfold genIPsLoop
    rw [if_pos (by omega)]
    rw [ih ((ip + 1) % 2 ^ 32) (Nat.mod_lt _ (by norm_num))]
    rfl

/-- Counterexample to claim C9 as stated: for the valid pool whose
`range_end` is `255.255.255.255` (`endInt = 2^32 - 1`) the `uint32` loop
guard `ipInt <= endInt` never fails — the counter wraps — so the
enumeration in `findNeverUsedIP` does not terminate. -/
theorem C9_no_termination_at_broadcast : ¬ loopTerminates 4294967295 4294967295 := by
  rintro ⟨fuel, ips, h⟩
  have hnone : genIPsLoop fuel 4294967295 (2 ^ 32 - 1) = none :=
    genIPsLoop_maxEnd fuel 4294967295 (by norm_num)
  rw [show (2 : Nat) ^ 32 - 1 = 4294967295 by norm_num] at hnone
  rw [hnone] at h
  exact Option.noConfusion h

theorem genIPsLoop_eq : ∀ (fuel s e : Nat), s ≤ e + 1 → e ≤ 2 ^ 32 - 2 →
    e + 2 - s ≤ fuel →
    genIPsLoop fuel s e = some (List.range' s (e + 1 - s)) := by
  intro fuel
  induction fuel with
  | zero => intro s e h1 _h2 h3; omega
  | succ f ih =>
    intro s e h1 h2 h3
    by_cases hse : s ≤ e
    · unfold genIPsLoop
      rw [if_pos hse]
      rw [Nat.mod_eq_of_lt (show s + 1 < 2 ^ 32 by omega)]
      rw [ih (s + 1) e (by omega) h2 (by omega)]
      have hn : e + 1 - s = (e + 1 - (s + 1)) + 1 := by omega
      rw [hn, List.range'_succ]
      rfl
    · have hs : s = e + 1 := by omega
      unfold genIPsLoop
      rw [if_neg hse]
      rw [hs]
      simp

/-- Claim C9 (amended): for every pool with `range_start ≤ range_end` and
`range_end` at most `2^32 - 2` (i.e. below `255.255.255.255`), the
enumeration loop of `findNeverUsedIP` terminates and its candidate list,
before shuffling, contains exactly the IPs of the inclusive range, each
exactly once; a pool with `range_start = range_end` yields exactly one
candidate. -/
theorem C9_enumeration (s e : Nat) (h1 : s ≤ e) (h2 : e ≤ 2 ^ 32 - 2) :
    loopTerminates s e ∧
    genIPs s e = some (List.range' s (e + 1 - s)) ∧
    (List.range' s (e + 1 - s)).Nodup ∧
    (∀ ip, ip ∈ List.range' s (e + 1 - s) ↔ s ≤ ip ∧ ip ≤ e) ∧
    (List.range' s (e + 1 - s)).length = e + 1 - s := by
  have hgen : genIPs s e = some (List.range' s (e + 1 - s)) :=
    genIPsLoop_eq (e + 2 - s) s e (by omega) h2 (by omega)
  refine ⟨⟨e + 2 - s, List.range' s (e + 1 - s), hgen⟩, hgen, ?_, ?_, ?_⟩
  · exact List.nodup_range' s (e + 1 - s)
  · intro ip
    rw [List.mem_range'_1]
    omega
  · exact List.length_range' s 1 (e + 1 - s)

/-- Witness for the amended C9 at the single-IP pool `[100, 100]`: the loop
terminates and enumerates exactly one candidate. -/
theorem C9_witness :
    loopTerminates 100 100 ∧
    genIPs 100 100 = some (List.range' 100 1) ∧
    (List.range' 100 1).Nodup ∧
    (∀ ip, ip ∈ List.range' 100 1 ↔ 100 ≤ ip ∧ ip ≤ 100) ∧
    (List.range' 100 1).length = 1 :=
  C9_enumeration 100 100 (by decide) (by norm_num)

theorem cont2Range_lower {b b1 : Nat} (h : cont2Range b b1) : 0x80 ≤ b1 := by
  unfold cont2Range at h
  split at h
  · omega
  · split at h <;> omega

theorem cont3Range_lower {b b1 : Nat} (h : cont3Range b b1) : 0x80 ≤ b1 := by
  unfold cont3Range at h
  split at h
  · omega
  · split at h <;> omega

theorem utf8Step_zero : ∀ {l : Bytes} {r : Nat} {rest : Bytes},
    utf8Step l = some (r, rest) → 0 ∈ l → r = 0 ∨ 0 ∈ rest := by
  intro l r rest h h0
  match l with
  | [] => simp at h0
  | b :: bs =>
    simp only [utf8Step] at h
    rw [List.mem_cons] at h0
    split at h
    next hb =>
      simp only [Option.some.injEq, Prod.mk.injEq] at h
      obtain ⟨hr, hrest⟩ := h
      rcases h0 with h0 | h0
      · left; omega
      · right; exact hrest ▸ h0
    next hb =>
      split at h
      next h2 =>
        split at h
        next b1 r1 =>
          split at h
          next hc =>
            simp only [Option.some.injEq, Prod.mk.injEq] at h
            obtain ⟨hr, hrest⟩ := h
            rcases h0 with h0 | h0
            · exfalso; omega
            · rw [List.mem_cons] at h0
              rcases h0 with h0 | h0
              · exfalso; omega
              · right; exact hrest ▸ h0
          next hc => exact absurd h (by simp)
        next => exact absurd h (by simp)
      next h2 =>
        split at h
        next h3 =>
          split at h
          next b1 b2 r2 =>
            split at h
            next hc =>
              obtain ⟨hc1, hcb2, hcb2u⟩ := hc
              have hb1 : 0x80 ≤ b1 := cont2Range_lower hc1
              simp only [Option.some.injEq, Prod.mk.injEq] at h
              obtain ⟨hr, hrest⟩ := h
              rcases h0 with h0 | h0
              · exfalso; omega
              · rw [List.mem_cons] at h0
                rcases h0 with h0 | h0
                · exfalso; omega
                · rw [List.mem_cons] at h0
                  rcases h0 with h0 | h0
                  · exfalso; omega
                  · right; exact hrest ▸ h0
            next hc => exact absurd h (by simp)
          next => exact absurd h (by simp)
          next b1 => exact absurd h (by simp)
        next h3 =>
          split at h
          next h4 =>
            split at h
            next b1 b2 b3 r3 =>
              split at h
              next hc =>
                obtain ⟨hc1, hcb2, hcb2u, hcb3, hcb3u⟩ := hc
                have hb1 : 0x80 ≤ b1 := cont3Range_lower hc1
                simp only [Option.some.injEq, Prod.mk.injEq] at h
                obtain ⟨hr, hrest⟩ := h
                rcases h0 with h0 | h0
                · exfalso; omega
                · rw [List.mem_cons] at h0
                  rcases h0 with h0 | h0
                  · exfalso; omega
                  · rw [List.mem_cons] at h0
                    rcases h0 with h0 | h0
                    · exfalso; omega
                    · rw [List.mem_cons] at h0
                      rcases h0 with h0 | h0
                      · exfalso; omega
                      · right; exact hrest ▸ h0
              next hc => exact absurd h (by simp)
            next => exact absurd h (by simp)
            next b1 => exact absurd h (by simp)
            next b1 b2 => exact absurd h (by simp)
          next h4 => exact absurd h (by simp)

theorem decodeUtf8Fuel_zero : ∀ (fuel : Nat) (l : Bytes) (runes : List Nat),
    decodeUtf8Fuel fuel l = some runes → 0 ∈ l → 0 ∈ runes := by
  intro fuel
  induction fuel with
  | zero =>
    intro l runes h h0
    match l with
    | [] => simp at h0
    | b :: bs => exact absurd h (by simp [decodeUtf8Fuel])
  | succ f ih =>
    intro l runes h h0
    match l with
    | [] => simp at h0
    | b :: bs =>
      simp only [decodeUtf8Fuel] at h
      rcases hs : utf8Step (b :: bs) with _ | ⟨r, rest2⟩
      · rw [hs] at h
        dsimp only at h
        exact absurd h (by simp)
      · rw [hs] at h
        dsimp only at h
        rcases hd : decodeUtf8Fuel f rest2 with _ | rs
        · rw [hd] at h; exact absurd h (by simp)
        · rw [hd] at h
          simp only [Option.map_some', Option.some.injEq] at h
          rcases utf8Step_zero hs h0 with h1 | h1
          · rw [← h, h1]
            exact List.mem_cons_self 0 rs
          · rw [← h]
            exact List.mem_cons_of_mem r (ih rest2 rs hd h1)

/-- Cleanliness in the sense of the spec sentence behind C8: well-formed
UTF-8 whose runes below 32 are only 9 (TAB), 10 (LF) or 13 (CR). -/
def utf8Clean (s : Bytes) : Prop :=
  ∃ runes, decodeUtf8 s = some runes ∧
    ∀ r ∈ runes, r < 32 → r = 9 ∨ r = 10 ∨ r = 13

theorem sanitizeUTF8_spec (s : Bytes) :
    (utf8Clean s → sanitizeUTF8 s = s) ∧
    (¬ utf8Clean s → sanitizeUTF8 s = hexMark ++ hexEncode s) ∧
    (0 ∈ s → sanitizeUTF8 s = hexMark ++ hexEncode s) := by
  by_cases hnil : s = []
  · subst hnil
    refine ⟨fun _ => rfl, fun hcl => ?_, fun h0 => absurd h0 (by simp)⟩
    exact absurd ⟨[], rfl, by simp⟩ hcl
  · unfold sanitizeUTF8
    rw [if_neg hnil]
    rcases hd : decodeUtf8 s with _ | runes
    · dsimp only
      refine ⟨fun hcl => ?_, fun _ => rfl, fun _ => rfl⟩
      obtain ⟨rs, hrs, _⟩ := hcl
      rw [hd] at hrs
      exact absurd hrs (by simp)
    · dsimp only
      by_cases hbad :
        (runes.any (fun r => decide (r < 32 ∧ r ≠ 9 ∧ r ≠ 10 ∧ r ≠ 13))) = true
      · rw [if_pos hbad]
        refine ⟨fun hcl => ?_, fun _ => rfl, fun _ => rfl⟩
        exfalso
        obtain ⟨rs, hrs, hall⟩ := hcl
        rw [hd] at hrs
        simp only [Option.some.injEq] at hrs
        obtain ⟨r, hr, hp⟩ := List.any_eq_true.mp hbad
        obtain ⟨h32, h9, h10, h13⟩ := of_decide_eq_true hp
        rcases hall r (hrs ▸ hr) h32 with h | h | h
        · exact h9 h
        · exact h10 h
        · exact h13 h
      · rw [if_neg hbad]
        refine ⟨fun _ => rfl, fun hncl => ?_, fun h0 => ?_⟩
        · exfalso
          apply hncl
          refine ⟨runes, hd, fun r hr h32 => ?_⟩
          by_contra hno
          apply hbad
          refine List.any_eq_true.mpr ⟨r, hr, decide_eq_true ⟨h32, ?_, ?_, ?_⟩⟩
          · intro h; exact hno (Or.inl h)
          · intro h; exact hno (Or.inr (Or.inl h))
          · intro h; exact hno (Or.inr (Or.inr h))
        · exfalso
          have h0r : 0 ∈ runes := decodeUtf8Fuel_zero s.length s runes hd h0
          apply hbad
          exact List.any_eq_true.mpr ⟨0, h0r, by decide⟩

/-- Claim C8: every wire byte string is stored either unchanged — exactly
when it is well-formed UTF-8 with no control character below 32 other than
9, 10, 13 — or as `"hex:"` followed by the lowercase hex encoding of the raw
bytes; a byte string containing NUL is always stored in the hex form; and
the lease struct built by the allocator carries the sanitized fields. -/
theorem C8_sanitize (s : Bytes) :
    (utf8Clean s → sanitizeUTF8 s = s) ∧
    (¬ utf8Clean s → sanitizeUTF8 s = hexMark ++ hexEncode s) ∧
    (0 ∈ s → sanitizeUTF8 s = hexMark ++ hexEncode s) ∧
    (∀ (req : AllocationRequest) (ip : Nat) (serverID : String) (now : Nat),
      (newLeaseFor req ip serverID now).hostname = sanitizeUTF8 req.hostname ∧
      (newLeaseFor req ip serverID now).clientId = sanitizeUTF8 req.clientId ∧
      (newLeaseFor req ip serverID now).vendorClass = sanitizeUTF8 req.vendorClass ∧
      (newLeaseFor req ip serverID now).userClass = sanitizeUTF8 req.userClass) :=
  ⟨(sanitizeUTF8_spec s).1, (sanitizeUTF8_spec s).2.1, (sanitizeUTF8_spec s).2.2,
   fun _ _ _ _ => ⟨rfl, rfl, rfl, rfl⟩⟩

/-- Witness for C8: a hostname with an embedded NUL byte is stored in the
`hex:` form. -/
theorem C8_witness :
    sanitizeUTF8 [104, 0, 105] = hexMark ++ hexEncode [104, 0, 105] :=
  (C8_sanitize [104, 0, 105]).2.2.1 (by decide)

/-- Reservation used in the C2 counterexample: MAC reserved to IP 50. -/
def resX2 : Reservation :=
  { id := 1, mac := "aa:bb:cc:dd:ee:02", ip := 50, hostname := [],
    subnet := "192.168.1.0/24", description := "", tftpServer := "",
    bootFilename := "" }

/-- Store of the C2 counterexample: no lease rows, one reservation. -/
def storeX2 : Store := { leases := [], reservations := [resX2], nextId := 1 }

/-- REQUEST context of the C2 counterexample. -/
def reqX2 : AllocationRequest :=
  { mac := "aa:bb:cc:dd:ee:02", hostname := [], subnet := "192.168.1.0/24",
    pools := [], leaseDuration := 3600, clientId := [], vendorClass := [],
    userClass := [] }

/-- The lease row the allocator creates in the C2 counterexample (for the
reserved IP 50, not the requested IP 200). -/
def leaseX2new : Lease :=
  { id := 1, ip := 50, mac := "aa:bb:cc:dd:ee:02", hostname := [],
    subnet := "192.168.1.0/24", issuedAt := 100, expiresAt := 3700,
    lastSeen := 100, state := LeaseState.active, clientId := [],
    vendorClass := [], userClass := [], allocatedBy := "srv",
    createdAt := 100, updatedAt := 100 }

/-- Store after the C2 counterexample allocation. -/
def storeX2after : Store :=
  { leases := [leaseX2new], reservations := [resX2], nextId := 2 }

/-- Counterexample to claim C2 as stated: a REQUEST for IP 200 with no row
for `(200, subnet)` runs the allocation ladder, the allocator returns the
reserved IP 50, yet the ACK's `yiaddr` is 200 — the handler always sets
`resp.YourIPAddr = requestedIP`, not the allocated lease's IP. -/
theorem C2_ack_carries_requested_ip :
    handleRequest storeX2 reqX2 200 "srv" id 100 =
      some (Reply.ack 200, storeX2after) ∧
    AllocateIP storeX2 reqX2 "srv" id 100 = some (storeX2after, leaseX2new) ∧
    leaseX2new.ip = 50 ∧ (200 : Nat) ≠ 50 := by decide

/-- Claim C2 (amended): when the requested IP has no row, the handler runs
the full allocation ladder, and on success ACKs with `yiaddr` equal to the
requested IP — whatever IP the allocator returned (only a warning is
logged when they differ). -/
theorem C2_request_absent_row_acks (st : Store) (req : AllocationRequest)
    (requestedIP : Nat) (serverID : String) (perm : List Nat → List Nat)
    (now : Nat) (st2 : Store) (l : Lease)
    (habs : st.GetLeaseByIP requestedIP req.subnet = none)
    (halloc : AllocateIP st req serverID perm now = some (st2, l)) :
    handleRequest st req requestedIP serverID perm now =
      some (Reply.ack requestedIP, st2) := by
  unfold handleRequest
  rw [habs, halloc]

/-- Witness for the amended C2 at the concrete input of the
counterexample. -/
theorem C2_witness :
    handleRequest storeX2 reqX2 200 "srv" id 100 =
      some (Reply.ack 200, storeX2after) :=
  C2_request_absent_row_acks storeX2 reqX2 200 "srv" id 100 storeX2after
    leaseX2new (by decide) (by decide)

/-- The expired lease of the C1 evidence: the only row of the pool. -/
def leaseX1 : Lease :=
  { id := 1, ip := 100, mac := "bb:bb:bb:bb:bb:01", hostname := [],
    subnet := "192.168.1.0/24", issuedAt := 0, expiresAt := 10, lastSeen := 0,
    state := LeaseState.expired, clientId := [], vendorClass := [],
    userClass := [], allocatedBy := "", createdAt := 0, updatedAt := 0 }

/-- Store of the C1 evidence. -/
def storeX1 : Store := { leases := [leaseX1], reservations := [], nextId := 2 }

/-- Allocation request of the C1 evidence. -/
def reqX1 : AllocationRequest :=
  { mac := "aa:aa:aa:aa:aa:01", hostname := [], subnet := "192.168.1.0/24",
    pools := [{ rangeStart := 100, rangeEnd := 100 }], leaseDuration := 50,
    clientId := [], vendorClass := [], userClass := [] }

/-- The pool of the C1 evidence. -/
def poolX1 : PoolConfig := { rangeStart := 100, rangeEnd := 100 }

/-- Evidence for C1 (code bug): the expired row at IP 100 is returned as
the (single) LRU candidate and passes both availability checks — no
unexpired active row, no conflicting reservation — yet `CreateLease` for it
necessarily violates the schema constraint `UNIQUE(ip, subnet)` (the
candidate's own row still exists), so the claim step "create a new active
row" can never succeed and the whole pool allocation fails. -/
theorem C1_lru_claim_insert_always_conflicts :
    storeX1.GetExpiredLeases "192.168.1.0/24" 100 100 10 = [leaseX1] ∧
    storeX1.GetLeaseByIP 100 "192.168.1.0/24" = some leaseX1 ∧
    ¬(leaseX1.state = LeaseState.active ∧ (20 : Nat) < leaseX1.expiresAt) ∧
    storeX1.GetReservationByIP 100 "192.168.1.0/24" = none ∧
    storeX1.CreateLease (newLeaseFor reqX1 100 "srv" 20) 20 = none ∧
    allocateFromPool storeX1 reqX1 poolX1 "srv" id 20 = none := by decide

/-- First lease cached in the C7 evidence. -/
def leaseX7a : Lease :=
  { id := 1, ip := 1, mac := "aa:bb:cc:dd:ee:07", hostname := [],
    subnet := "192.168.1.0/24", issuedAt := 0, expiresAt := 100, lastSeen := 0,
    state := LeaseState.active, clientId := [], vendorClass := [],
    userClass := [], allocatedBy := "", createdAt := 0, updatedAt := 0 }

/-- The same MAC rebound to IP 2 in the C7 evidence. -/
def leaseX7b : Lease :=
  { id := 2, ip := 2, mac := "aa:bb:cc:dd:ee:07", hostname := [],
    subnet := "192.168.1.0/24", issuedAt := 0, expiresAt := 100, lastSeen := 0,
    state := LeaseState.active, clientId := [], vendorClass := [],
    userClass := [], allocatedBy := "", createdAt := 0, updatedAt := 0 }

/-- The cache after `Put` of IP 1 then `Put` of IP 2 for the same MAC. -/
def cacheX7 : LeaseCache := ((NewLeaseCache 16).Put leaseX7a).Put leaseX7b

/-- Evidence for C7 (code bug): after a `Put` that moves the MAC's lease
from IP 1 to IP 2, the old index entry `byIP["1"]` still points at the
entry — a fresh entry's `key` is initialised to the MAC key, so the update
path deletes `byIP[macKey]` (a no-op) instead of `byIP["1"]` — and
`GetByIP 1` returns the lease now bound to IP 2. -/
theorem C7_stale_ip_index_after_put :
    (cacheX7.GetByIP 1).1 = some leaseX7b ∧
    leaseX7b.ip = 2 ∧ (1 : Nat) ≠ 2 ∧
    (cacheX7.GetByIP 2).1 = some leaseX7b := by decide

/-- Reservation present in the store in the C5 counterexample. -/
def resX5 : Reservation :=
  { id := 1, mac := "aa:aa:aa:aa:aa:05", ip := 5, hostname := [],
    subnet := "10.0.0.0/24", description := "", tftpServer := "",
    bootFilename := "" }

/-- Store of the C5 counterexample. -/
def rstoreX5 : RStore := { rows := [resX5], nextId := 2 }

/-- Configuration of the C5 counterexample: the same IP is moved to a new
MAC. -/
def cfgX5 : Config :=
  { subnets := [{ network := "10.0.0.0/24",
                  reservations := [{ mac := "bb:bb:bb:bb:bb:05", ip := 5,
                                     hostname := [], description := "",
                                     tftpServer := "", bootFilename := "" }] }] }

/-- Counterexample to claim C5 as stated: the diff demands one addition
(the config-only MAC `bb:…`), but the `INSERT` runs before the deletion of
the row that still holds `(5, 10.0.0.0/24)`, violates `UNIQUE(ip, subnet)`,
is logged and skipped — `reservations_added` records 0 and the reservation
is absent from the final store. -/
theorem C5_insert_before_delete_loses_addition :
    (applyConfig rstoreX5 cfgX5).2.reservationsAdded = 0 ∧
    (cfgRes cfgX5).countP
      (fun rn => !(rstoreX5.rows.any (fun ex => ex.mac == rn.1.mac))) = 1 ∧
    (applyConfig rstoreX5 cfgX5).2.reservationsDeleted = 1 ∧
    (applyConfig rstoreX5 cfgX5).1.rows = [] ∧
    (0 : Nat) ≠ 1 := by decide

/-! Helpers describing the effect of the reservation diff (used to state the
amended C5). -/

/-- The row an original reservation ends up as after the add/update pass
over the processed configuration entries `p`. -/
def updForP (p : List (ResCfg × String)) (ex : Reservation) : Reservation :=
  match p.find? (fun rn => rn.1.mac == ex.mac) with
  | some rn => if resChanged ex rn.1 then resFields ex rn.1 rn.2 else ex
  | none => ex

/-- The reservation row created for a config entry, with its serial id. -/
def mkNewRes (rn : ResCfg × String) (n : Nat) : Reservation :=
  { id := n, mac := rn.1.mac, ip := rn.1.ip, hostname := rn.1.hostname,
    subnet := rn.2, description := rn.1.description,
    tftpServer := rn.1.tftpServer, bootFilename := rn.1.bootFilename }

/-- The rows created for the config entries whose MAC is absent from the
original store, with consecutive serial ids from `n`. -/
def createdRows (rows0 : List Reservation) :
    List (ResCfg × String) → Nat → List Reservation
  | [], _ => []
  | rn :: p, n =>
    if ∀ ex ∈ rows0, ex.mac ≠ rn.1.mac then
      mkNewRes rn n :: createdRows rows0 p (n + 1)
    else createdRows rows0 p n

/-- The Boolean used to count additions. -/
def newMacB (rows0 : List Reservation) (rn : ResCfg × String) : Bool :=
  decide (∀ ex ∈ rows0, ex.mac ≠ rn.1.mac)

/-- The Boolean used to count updates. -/
def updMacB (rows0 : List Reservation) (rn : ResCfg × String) : Bool :=
  decide (∃ ex ∈ rows0, ex.mac = rn.1.mac ∧ resChanged ex rn.1)

theorem updForP_id (p : List (ResCfg × String)) (ex : Reservation) :
    (updForP p ex).id = ex.id := by
  unfold updForP
  rcases hf : p.find? (fun rn => rn.1.mac == ex.mac) with _ | rn
  · rw [hf]
  · rw [hf]
    dsimp only
    split
    · rfl
    · rfl

theorem updForP_mac (p : List (ResCfg × String)) (ex : Reservation) :
    (updForP p ex).mac = ex.mac := by
  unfold updForP
  rcases hf : p.find? (fun rn => rn.1.mac == ex.mac) with _ | rn
  · rw [hf]
  · rw [hf]
    dsimp only
    split
    · rfl
    · rfl

theorem updForP_cases (p : List (ResCfg × String)) (ex : Reservation) :
    updForP p ex = ex ∨
      ∃ rn ∈ p, rn.1.mac = ex.mac ∧ updForP p ex = resFields ex rn.1 rn.2 := by
  unfold updForP
  rcases hf : p.find? (fun rn => rn.1.mac == ex.mac) with _ | rn
  · rw [hf]
    exact Or.inl rfl
  · rw [hf]
    dsimp only
    have hmem := List.mem_of_find?_eq_some hf
    have hcond := List.find?_some hf
    rw [beq_iff_eq] at hcond
    split
    · exact Or.inr ⟨rn, hmem, hcond, rfl⟩
    · exact Or.inl rfl

theorem updForP_append_single {rn0 : ResCfg × String} {ex : Reservation}
    (p : List (ResCfg × String)) (h : rn0.1.mac ≠ ex.mac) :
    updForP (p ++ [rn0]) ex = updForP p ex := by
  unfold updForP
  rw [List.find?_append]
  have hsingle : List.find? (fun rn => rn.1.mac == ex.mac) [rn0] = none := by
    rw [List.find?_cons_of_neg _ (by simpa using h), List.find?_nil]
  rw [hsingle, Option.or_none]

theorem updForP_none {p : List (ResCfg × String)} {ex : Reservation}
    (h : ∀ rn ∈ p, rn.1.mac ≠ ex.mac) : updForP p ex = ex := by
  unfold updForP
  rw [List.find?_eq_none.mpr (fun rn hrn => by simpa using h rn hrn)]

theorem createdRows_mem {rows0 : List Reservation} :
    ∀ {p : List (ResCfg × String)} {n : Nat} {c : Reservation},
    c ∈ createdRows rows0 p n →
      n ≤ c.id ∧ ∃ rn ∈ p, c.mac = rn.1.mac ∧ c.ip = rn.1.ip ∧ c.subnet = rn.2 := by
  intro p
  induction p with
  | nil => intro n c hc; exact absurd hc (by simp [createdRows])
  | cons rn p ih =>
    intro n c hc
    unfold createdRows at hc
    split at hc
    · rcases List.mem_cons.mp hc with hc | hc
      · subst hc
        exact ⟨Nat.le_refl n, rn, List.mem_cons_self rn p, rfl, rfl, rfl⟩
      · obtain ⟨hle, rn1, hrn1, hrest⟩ := ih hc
        exact ⟨by omega, rn1, List.mem_cons_of_mem rn hrn1, hrest⟩
    · obtain ⟨hle, rn1, hrn1, hrest⟩ := ih hc
      exact ⟨hle, rn1, List.mem_cons_of_mem rn hrn1, hrest⟩

theorem createdRows_append (rows0 : List Reservation) (rn0 : ResCfg × String) :
    ∀ (p : List (ResCfg × String)) (n : Nat),
    createdRows rows0 (p ++ [rn0]) n =
      if ∀ ex ∈ rows0, ex.mac ≠ rn0.1.mac then
        createdRows rows0 p n ++ [mkNewRes rn0 (n + p.countP (newMacB rows0))]
      else createdRows rows0 p n := by
  intro p
  induction p with
  | nil =>
    intro n
    simp only [List.nil_append, List.countP_nil, Nat.add_zero]
    by_cases h0 : ∀ ex ∈ rows0, ex.mac ≠ rn0.1.mac
    · rw [if_pos h0]
      unfold createdRows
      rw [if_pos h0]
      unfold createdRows
      rfl
    · rw [if_neg h0]
      unfold createdRows
      rw [if_neg h0]
      unfold createdRows
      rfl
  | cons rn p ih =>
    intro n
    simp only [List.cons_append]
    by_cases h0 : ∀ ex ∈ rows0, ex.mac ≠ rn0.1.mac
    · rw [if_pos h0]
      by_cases hnew : ∀ ex ∈ rows0, ex.mac ≠ rn.1.mac
      · have hcnt : (rn :: p).countP (newMacB rows0) = p.countP (newMacB rows0) + 1 :=
          List.countP_cons_of_pos _ _ (decide_eq_true hnew)
        rw [hcnt]
        unfold createdRows
        rw [if_pos hnew, if_pos hnew, ih (n + 1), if_pos h0, List.cons_append]
        have harith : n + 1 + p.countP (newMacB rows0) =
            n + (p.countP (newMacB rows0) + 1) := by omega
        rw [harith]
      · have hcnt : (rn :: p).countP (newMacB rows0) = p.countP (newMacB rows0) :=
          List.countP_cons_of_neg _ _
            (by simp only [newMacB, decide_eq_true_eq]; exact hnew)
        rw [hcnt]
        unfold createdRows
        rw [if_neg hnew, if_neg hnew, ih n, if_pos h0]
    · rw [if_neg h0]
      by_cases hnew : ∀ ex ∈ rows0, ex.mac ≠ rn.1.mac
      · unfold createdRows
        rw [if_pos hnew, if_pos hnew, ih (n + 1), if_neg h0]
      · unfold createdRows
        rw [if_neg hnew, if_neg hnew, ih n, if_neg h0]

theorem find_mac_unique :
    ∀ {rows : List Reservation}, (rows.map (fun ex => ex.mac)).Nodup →
    ∀ {ex0 : Reservation}, ex0 ∈ rows → ∀ {m : String}, ex0.mac = m →
    rows.find? (fun ex => ex.mac == m) = some ex0 := by
  intro rows
  induction rows with
  | nil => intro _ ex0 h; exact absurd h (by simp)
  | cons y t ih =>
    intro hnodup ex0 hmem m hm
    rcases List.mem_cons.mp hmem with hy | ht
    · subst hy
      rw [List.find?_cons_of_pos _ (by simpa using hm)]
    · by_cases hym : y.mac = m
      · exfalso
        have hmem2 : ex0.mac ∈ t.map (fun ex => ex.mac) :=
          List.mem_map_of_mem _ ht
        rw [List.map_cons, List.nodup_cons] at hnodup
        apply hnodup.1
        rw [hym, ← hm]
        exact hmem2
      · rw [List.find?_cons_of_neg _ (by simpa using hym)]
        rw [List.map_cons, List.nodup_cons] at hnodup
        exact ih hnodup.2 ht hm

theorem map_eq_self_of_forall {α : Type} {l : List α} {f : α → α}
    (h : ∀ a ∈ l, f a = a) : l.map f = l := by
  induction l with
  | nil => rfl
  | cons a t ih =>
    rw [List.map_cons, h a (List.mem_cons_self a t),
      ih (fun b hb => h b (List.mem_cons_of_mem a hb))]

/-- The rows still in `existingMap` after processing the entries `p`. -/
def pendPred (p : List (ResCfg × String)) (ex : Reservation) : Bool :=
  decide (∀ rn ∈ p, rn.1.mac ≠ ex.mac)

theorem pendPred_append (p : List (ResCfg × String)) (rn0 : ResCfg × String)
    (a : Reservation) :
    pendPred (p ++ [rn0]) a = (decide ¬(a.mac = rn0.1.mac) && pendPred p a) := by
  simp only [pendPred, List.forall_mem_append, List.forall_mem_singleton,
    Bool.decide_and]
  rw [Bool.and_comm]
  have hiff : (¬ rn0.1.mac = a.mac) ↔ (¬ a.mac = rn0.1.mac) :=
    not_congr ⟨Eq.symm, Eq.symm⟩
  rw [decide_eq_decide.mpr hiff]

theorem updForP_append_found {p : List (ResCfg × String)}
    {rn0 : ResCfg × String} {ex : Reservation}
    (h : ∀ rn ∈ p, rn.1.mac ≠ ex.mac) (hm : rn0.1.mac = ex.mac) :
    updForP (p ++ [rn0]) ex =
      if resChanged ex rn0.1 then resFields ex rn0.1 rn0.2 else ex := by
  unfold updForP
  rw [List.find?_append,
      List.find?_eq_none.mpr (fun rn hrn => by simpa using h rn hrn),
      Option.none_or, List.find?_cons_of_pos _ (by simpa using hm)]

/-- The loop invariant of the add/update pass of `applyConfig`, relative to
the original rows `rows0` and id sequence start `n0`, after the entries `p`
have been processed. -/
def SyncInv (rows0 : List Reservation) (n0 : Nat)
    (p : List (ResCfg × String)) (s : SyncSt) : Prop :=
  s.pending = rows0.filter (pendPred p) ∧
  s.added = p.countP (newMacB rows0) ∧
  s.updated = p.countP (updMacB rows0) ∧
  s.store.rows = rows0.map (updForP p) ++ createdRows rows0 p n0 ∧
  s.store.nextId = n0 + p.countP (newMacB rows0)

theorem syncStep_inv (rows0 : List Reservation) (n0 : Nat)
    (p : List (ResCfg × String)) (rn0 : ResCfg × String) (s : SyncSt)
    (hinv : SyncInv rows0 n0 p s)
    (hmacp : ∀ rn ∈ p, rn.1.mac ≠ rn0.1.mac)
    (hpairp : ∀ rn ∈ p, ¬(rn.1.ip = rn0.1.ip ∧ rn.2 = rn0.2))
    (hstore : (rows0.map (fun ex => ex.mac)).Nodup)
    (hids : ∀ ex ∈ rows0, ex.id < n0)
    (hidnodup : (rows0.map (fun ex => ex.id)).Nodup)
    (hcross0 : ∀ ex ∈ rows0, ex.mac ≠ rn0.1.mac →
      ¬(ex.ip = rn0.1.ip ∧ ex.subnet = rn0.2)) :
    SyncInv rows0 n0 (p ++ [rn0]) (syncStep s rn0) := by
  obtain ⟨hpend, hadd, hupd, hrows, hnext⟩ := hinv
  have hmemrows : ∀ o ∈ s.store.rows,
      (∃ ex ∈ rows0, o = updForP p ex) ∨
      (n0 ≤ o.id ∧ ∃ rn ∈ p, o.mac = rn.1.mac ∧ o.ip = rn.1.ip ∧ o.subnet = rn.2) := by
    intro o ho
    rw [hrows] at ho
    rcases List.mem_append.mp ho with ho | ho
    · obtain ⟨ex, hex, heq⟩ := List.mem_map.mp ho
      exact Or.inl ⟨ex, hex, heq.symm⟩
    · exact Or.inr (createdRows_mem ho)
  by_cases hmac0 : ∀ ex ∈ rows0, ex.mac ≠ rn0.1.mac
  · -- create branch
    have hfind : s.pending.find? (fun ex => ex.mac == rn0.1.mac) = none := by
      rw [hpend]
      apply List.find?_eq_none.mpr
      intro x hx
      simpa using hmac0 x (List.mem_of_mem_filter hx)
    have hanyc : (s.store.rows.any (fun o =>
        decide (o.mac = rn0.1.mac ∨ (o.ip = rn0.1.ip ∧ o.subnet = rn0.2)))) = false := by
      apply List.any_eq_false.mpr
      intro o ho
      simp only [decide_eq_true_eq]
      rintro (hom | hop)
      · rcases hmemrows o ho with ⟨ex, hex, heq⟩ | ⟨_, rn1, hrn1, hmac1, _⟩
        · rw [heq, updForP_mac] at hom
          exact hmac0 ex hex hom
        · rw [hmac1] at hom
          exact hmacp rn1 hrn1 hom
      · rcases hmemrows o ho with ⟨ex, hex, heq⟩ | ⟨_, rn1, hrn1, _, hip1, hsub1⟩
        · rcases updForP_cases p ex with hid | ⟨rn1, hrn1, _, hres⟩
          · rw [hid] at heq
            exact hcross0 ex hex (hmac0 ex hex) (heq ▸ hop)
          · rw [hres] at heq
            refine hpairp rn1 hrn1 ⟨?_, ?_⟩
            · have : o.ip = rn1.1.ip := by rw [heq]; rfl
              rw [← this]; exact hop.1
            · have : o.subnet = rn1.2 := by rw [heq]; rfl
              rw [← this]; exact hop.2
        · refine hpairp rn1 hrn1 ⟨?_, ?_⟩
          · rw [← hip1]; exact hop.1
          · rw [← hsub1]; exact hop.2
    have hcreate : s.store.CreateReservation
        { id := 0, mac := rn0.1.mac, ip := rn0.1.ip, hostname := rn0.1.hostname,
          subnet := rn0.2, description := rn0.1.description,
          tftpServer := rn0.1.tftpServer, bootFilename := rn0.1.bootFilename } =
        some { rows := s.store.rows ++
                 [{ id := s.store.nextId, mac := rn0.1.mac, ip := rn0.1.ip,
                    hostname := rn0.1.hostname, subnet := rn0.2,
                    description := rn0.1.description,
                    tftpServer := rn0.1.tftpServer,
                    bootFilename := rn0.1.bootFilename }],
               nextId := s.store.nextId + 1 } := by
      unfold RStore.CreateReservation
      rw [if_neg (by rw [hanyc]; exact Bool.false_ne_true)]
    have hcnt1 : (p ++ [rn0]).countP (newMacB rows0) =
        p.countP (newMacB rows0) + 1 := by
      rw [List.countP_append]
      have hp : newMacB rows0 rn0 = true := decide_eq_true hmac0
      have : List.countP (newMacB rows0) [rn0] = 1 := by
        rw [List.countP_cons_of_pos _ _ hp, List.countP_nil]
      rw [this]
    have hcnt2 : (p ++ [rn0]).countP (updMacB rows0) = p.countP (updMacB rows0) := by
      rw [List.countP_append]
      have hp : ¬ updMacB rows0 rn0 = true := by
        simp only [updMacB, decide_eq_true_eq]
        rintro ⟨ex, hex, hexm, _⟩
        exact hmac0 ex hex hexm
      have : List.countP (updMacB rows0) [rn0] = 0 := by
        rw [List.countP_cons_of_neg _ _ hp, List.countP_nil]
      rw [this, Nat.add_zero]
    unfold syncStep
    rw [hfind]
    dsimp only
    rw [hcreate]
    dsimp only
    refine ⟨?_, ?_, ?_, ?_, ?_⟩
    · show s.pending = _
      rw [hpend]
      apply List.filter_congr
      intro x hx
      rw [pendPred_append]
      have hxm : (decide ¬(x.mac = rn0.1.mac)) = true :=
        decide_eq_true (hmac0 x hx)
      rw [hxm, Bool.true_and]
    · rw [hadd, hcnt1]
    · rw [hupd, hcnt2]
    · show s.store.rows ++ _ = _
      rw [createdRows_append, if_pos hmac0]
      have hmap : rows0.map (updForP (p ++ [rn0])) = rows0.map (updForP p) :=
        List.map_congr_left (fun ex hex =>
          updForP_append_single p (Ne.symm (hmac0 ex hex)))
      rw [hmap, hrows, hnext, List.append_assoc]
      rfl
    · show s.store.nextId + 1 = _
      rw [hnext, hcnt1]
      omega
  · -- found branch: some row has the MAC
    push_neg at hmac0
    obtain ⟨ex0, hex0mem, hex0mac⟩ := hmac0
    have hmac0neg : ¬ ∀ ex ∈ rows0, ex.mac ≠ rn0.1.mac := by
      push_neg
      exact ⟨ex0, hex0mem, hex0mac⟩
    have hmacp0 : ∀ rn ∈ p, rn.1.mac ≠ ex0.mac := by
      intro rn hrn
      rw [hex0mac]
      exact hmacp rn hrn
    have hpendnodup : (s.pending.map (fun ex => ex.mac)).Nodup := by
      rw [hpend]
      exact ((List.filter_sublist rows0).map (fun ex => ex.mac)).nodup hstore
    have hex0pend : ex0 ∈ s.pending := by
      rw [hpend]
      apply List.mem_filter.mpr
      refine ⟨hex0mem, ?_⟩
      simp only [pendPred, decide_eq_true_eq]
      intro rn hrn
      exact hmacp0 rn hrn
    have hfind : s.pending.find? (fun ex => ex.mac == rn0.1.mac) = some ex0 :=
      find_mac_unique hpendnodup hex0pend hex0mac
    have hinj : ∀ ex ∈ rows0, ex.mac = rn0.1.mac → ex = ex0 := by
      intro ex hex hm
      exact List.inj_on_of_nodup_map hstore hex hex0mem (by rw [hm, hex0mac])
    have hidinj : ∀ ex ∈ rows0, ex.id = ex0.id → ex = ex0 := by
      intro ex hex hm
      exact List.inj_on_of_nodup_map hidnodup hex hex0mem hm
    have hpendstep : ∀ pend2, pend2 = rows0.filter (pendPred p) →
        pend2.filter (fun ex2 => decide ¬(ex2.mac = rn0.1.mac)) =
          rows0.filter (pendPred (p ++ [rn0])) := by
      intro pend2 hp2
      rw [hp2, List.filter_filter]
      apply List.filter_congr
      intro x _hx
      rw [pendPred_append]
    have hcnt1 : (p ++ [rn0]).countP (newMacB rows0) = p.countP (newMacB rows0) := by
      rw [List.countP_append]
      have hp : ¬ newMacB rows0 rn0 = true := by
        simp only [newMacB, decide_eq_true_eq]
        exact hmac0neg
      have : List.countP (newMacB rows0) [rn0] = 0 := by
        rw [List.countP_cons_of_neg _ _ hp, List.countP_nil]
      rw [this, Nat.add_zero]
    have hcreatedeq : createdRows rows0 (p ++ [rn0]) n0 = createdRows rows0 p n0 := by
      rw [createdRows_append, if_neg hmac0neg]
    by_cases hch : resChanged ex0 rn0.1
    · -- changed: update row ex0
      have hanyu : (s.store.rows.any (fun o =>
          decide (o.id ≠ (resFields ex0 rn0.1 rn0.2).id ∧
            o.ip = (resFields ex0 rn0.1 rn0.2).ip ∧
            o.subnet = (resFields ex0 rn0.1 rn0.2).subnet))) = false := by
        apply List.any_eq_false.mpr
        intro o ho
        simp only [decide_eq_true_eq]
        rintro ⟨hoid, hoip, hosub⟩
        have hfid : (resFields ex0 rn0.1 rn0.2).id = ex0.id := rfl
        rw [hfid] at hoid
        rcases hmemrows o ho with ⟨ex, hex, heq⟩ | ⟨_, rn1, hrn1, _, hip1, hsub1⟩
        · by_cases hexm : ex.mac = rn0.1.mac
          · have : ex = ex0 := hinj ex hex hexm
            subst this
            apply hoid
            rw [heq, updForP_id]
          · rcases updForP_cases p ex with hid | ⟨rn1, hrn1, _, hres⟩
            · rw [hid] at heq
              exact hcross0 ex hex hexm ⟨heq ▸ hoip, heq ▸ hosub⟩
            · rw [hres] at heq
              refine hpairp rn1 hrn1 ⟨?_, ?_⟩
              · have : o.ip = rn1.1.ip := by rw [heq]; rfl
                rw [← this]; exact hoip
              · have : o.subnet = rn1.2 := by rw [heq]; rfl
                rw [← this]; exact hosub
        · refine hpairp rn1 hrn1 ⟨?_, ?_⟩
          · rw [← hip1]; exact hoip
          · rw [← hsub1]; exact hosub
      have hupdate : s.store.UpdateReservation (resFields ex0 rn0.1 rn0.2) =
          some { s.store with rows := s.store.rows.map (fun o =>
            if o.id = (resFields ex0 rn0.1 rn0.2).id then
              { o with ip := (resFields ex0 rn0.1 rn0.2).ip,
                       hostname := (resFields ex0 rn0.1 rn0.2).hostname,
                       subnet := (resFields ex0 rn0.1 rn0.2).subnet,
                       description := (resFields ex0 rn0.1 rn0.2).description,
                       tftpServer := (resFields ex0 rn0.1 rn0.2).tftpServer,
                       bootFilename := (resFields ex0 rn0.1 rn0.2).bootFilename }
            else o) } := by
        unfold RStore.UpdateReservation
        rw [if_neg (by rw [hanyu]; exact Bool.false_ne_true)]
      have hcnt2 : (p ++ [rn0]).countP (updMacB rows0) =
          p.countP (updMacB rows0) + 1 := by
        rw [List.countP_append]
        have hp : updMacB rows0 rn0 = true :=
          decide_eq_true ⟨ex0, hex0mem, hex0mac, hch⟩
        have : List.countP (updMacB rows0) [rn0] = 1 := by
          rw [List.countP_cons_of_pos _ _ hp, List.countP_nil]
        rw [this]
      unfold syncStep
      rw [hfind]
      dsimp only
      rw [if_pos hch, hupdate]
      dsimp only
      refine ⟨?_, ?_, ?_, ?_, ?_⟩
      · exact hpendstep s.pending hpend
      · show s.added = _
        rw [hadd, hcnt1]
      · show s.updated + 1 = _
        rw [hupd, hcnt2]
      · show (s.store.rows.map _) = _
        rw [hrows, List.map_append, List.map_map, hcreatedeq]
        have hcreatedid : (createdRows rows0 p n0).map (fun o =>
            if o.id = (resFields ex0 rn0.1 rn0.2).id then
              { o with ip := (resFields ex0 rn0.1 rn0.2).ip,
                       hostname := (resFields ex0 rn0.1 rn0.2).hostname,
                       subnet := (resFields ex0 rn0.1 rn0.2).subnet,
                       description := (resFields ex0 rn0.1 rn0.2).description,
                       tftpServer := (resFields ex0 rn0.1 rn0.2).tftpServer,
                       bootFilename := (resFields ex0 rn0.1 rn0.2).bootFilename }
            else o) = createdRows rows0 p n0 := by
          apply map_eq_self_of_forall
          intro c hc
          have hcid := (createdRows_mem hc).1
          have hfid : (resFields ex0 rn0.1 rn0.2).id = ex0.id := rfl
          rw [hfid, if_neg]
          have := hids ex0 hex0mem
          omega
        rw [hcreatedid]
        congr 1
        apply List.map_congr_left
        intro ex hex
        simp only [Function.comp_apply]
        by_cases hexm : ex.mac = rn0.1.mac
        · have hee : ex = ex0 := hinj ex hex hexm
          subst hee
          rw [updForP_none hmacp0, updForP_append_found hmacp0 hex0mac.symm,
            if_pos hch]
          have hfid : (resFields ex rn0.1 rn0.2).id = ex.id := rfl
          rw [hfid, if_pos (rfl : ex.id = ex.id)]
          rfl
        · have hne : ex ≠ ex0 := fun hee => hexm (by rw [hee, hex0mac])
          have hidne : (updForP p ex).id ≠ (resFields ex0 rn0.1 rn0.2).id := by
            rw [updForP_id]
            intro hid
            exact hne (hidinj ex hex hid)
          rw [if_neg hidne, updForP_append_single p (fun hh => hexm hh.symm)]
      · show s.store.nextId = _
        rw [hnext, hcnt1]
    · -- unchanged: only the pending map shrinks
      have hcnt2 : (p ++ [rn0]).countP (updMacB rows0) = p.countP (updMacB rows0) := by
        rw [List.countP_append]
        have hp : ¬ updMacB rows0 rn0 = true := by
          simp only [updMacB, decide_eq_true_eq]
          rintro ⟨ex, hex, hexm, hchx⟩
          exact hch ((hinj ex hex hexm) ▸ hchx)
        have : List.countP (updMacB rows0) [rn0] = 0 := by
          rw [List.countP_cons_of_neg _ _ hp, List.countP_nil]
        rw [this, Nat.add_zero]
      unfold syncStep
      rw [hfind]
      dsimp only
      rw [if_neg hch]
      refine ⟨?_, ?_, ?_, ?_, ?_⟩
      · exact hpendstep s.pending hpend
      · show s.added = _
        rw [hadd, hcnt1]
      · show s.updated = _
        rw [hupd, hcnt2]
      · show s.store.rows = _
        rw [hrows, hcreatedeq]
        congr 1
        apply List.map_congr_left
        intro ex hex
        by_cases hexm : ex.mac = rn0.1.mac
        · have hee : ex = ex0 := hinj ex hex hexm
          subst hee
          rw [updForP_none hmacp0, updForP_append_found hmacp0 hex0mac.symm,
            if_neg hch]
        · rw [updForP_append_single p (fun hh => hexm hh.symm)]
      · show s.store.nextId = _
        rw [hnext, hcnt1]

theorem syncFold_inv (rows0 : List Reservation) (n0 : Nat)
    (hstore : (rows0.map (fun ex => ex.mac)).Nodup)
    (hids : ∀ ex ∈ rows0, ex.id < n0)
    (hidnodup : (rows0.map (fun ex => ex.id)).Nodup) :
    ∀ (q p : List (ResCfg × String)) (s : SyncSt),
    SyncInv rows0 n0 p s →
    ((p ++ q).map (fun rn => rn.1.mac)).Nodup →
    ((p ++ q).map (fun rn => (rn.1.ip, rn.2))).Nodup →
    (∀ rn ∈ q, ∀ ex ∈ rows0, ex.mac ≠ rn.1.mac →
      ¬(ex.ip = rn.1.ip ∧ ex.subnet = rn.2)) →
    SyncInv rows0 n0 (p ++ q) (q.foldl syncStep s) := by
  intro q
  induction q with
  | nil =>
    intro p s hinv _ _ _
    rw [List.foldl_nil, List.append_nil]
    exact hinv
  | cons rn0 q2 ih =>
    intro p s hinv hnodupmac hnoduppair hcross
    have hnm : ((p.map (fun rn => rn.1.mac)) ++
        ((rn0 :: q2).map (fun rn => rn.1.mac))).Nodup := by
      rw [← List.map_append]
      exact hnodupmac
    have hnp : ((p.map (fun rn => (rn.1.ip, rn.2))) ++
        ((rn0 :: q2).map (fun rn => (rn.1.ip, rn.2)))).Nodup := by
      rw [← List.map_append]
      exact hnoduppair
    have hmacp : ∀ rn ∈ p, rn.1.mac ≠ rn0.1.mac := by
      intro rn hrn
      have := List.disjoint_of_nodup_append hnm
        (List.mem_map_of_mem _ hrn)
      intro hc
      apply this
      rw [hc]
      exact List.mem_map_of_mem _ (List.mem_cons_self rn0 q2)
    have hpairp : ∀ rn ∈ p, ¬(rn.1.ip = rn0.1.ip ∧ rn.2 = rn0.2) := by
      intro rn hrn
      have := List.disjoint_of_nodup_append hnp
        (List.mem_map_of_mem _ hrn)
      rintro ⟨h1, h2⟩
      apply this
      rw [show ((rn.1.ip, rn.2) : Nat × String) = (rn0.1.ip, rn0.2) from by
        rw [h1, h2]]
      exact List.mem_map_of_mem _ (List.mem_cons_self rn0 q2)
    have hstep := syncStep_inv rows0 n0 p rn0 s hinv hmacp hpairp hstore hids
      hidnodup (hcross rn0 (List.mem_cons_self rn0 q2))
    have h1 : (((p ++ [rn0]) ++ q2).map (fun rn => rn.1.mac)).Nodup := by
      rw [List.append_assoc]
      exact hnodupmac
    have h2 : (((p ++ [rn0]) ++ q2).map (fun rn => (rn.1.ip, rn.2))).Nodup := by
      rw [List.append_assoc]
      exact hnoduppair
    have h3 : ∀ rn ∈ q2, ∀ ex ∈ rows0, ex.mac ≠ rn.1.mac →
        ¬(ex.ip = rn.1.ip ∧ ex.subnet = rn.2) :=
      fun rn hrn => hcross rn (List.mem_cons_of_mem rn0 hrn)
    have hres := ih (p ++ [rn0]) (syncStep s rn0) hstep h1 h2 h3
    rw [List.foldl_cons]
    have heq : p ++ rn0 :: q2 = (p ++ [rn0]) ++ q2 := by
      rw [List.append_assoc, List.singleton_append]
    rw [heq]
    exact hres

theorem deleteFold_rows : ∀ (pend : List Reservation) (st : RStore),
    (pend.foldl (fun st2 ex => st2.DeleteReservation ex.id) st).rows =
      st.rows.filter (fun o => decide (∀ ex ∈ pend, o.id ≠ ex.id)) := by
  intro pend
  induction pend with
  | nil =>
    intro st
    rw [List.foldl_nil]
    exact (List.filter_eq_self.mpr (fun a _ => by simp)).symm
  | cons x t ih =>
    intro st
    rw [List.foldl_cons, ih]
    show ((st.DeleteReservation x.id).rows).filter _ = _
    unfold RStore.DeleteReservation
    dsimp only
    rw [List.filter_filter]
    apply List.filter_congr
    intro o _
    simp only [List.forall_mem_cons, Bool.decide_and]
    rw [Bool.and_comm]

/-- Claim C5 (amended): under the schema invariants of the reservation
table (unique MACs, serial ids) and provided no incoming reservation reuses
the `(ip, subnet)` of a differently-MACed row — the proviso forced by the
counterexample, since creations and updates run before deletions and a
failed statement is skipped and not counted — `applyConfig` performs
exactly the diff by MAC: config-only MACs are created (with the config
fields, consecutive serial ids), MACs present in both with a changed field
are updated in place, store-only MACs are deleted, and `changes_applied`
records the exact counts plus `total_subnets` and `config_reloaded:
true`. -/
theorem C5_reservation_diff (store0 : RStore) (cfg : Config)
    (hmacs : ((cfgRes cfg).map (fun rn => rn.1.mac)).Nodup)
    (hstore : (store0.rows.map (fun ex => ex.mac)).Nodup)
    (hids : ∀ ex ∈ store0.rows, ex.id < store0.nextId)
    (hidnodup : (store0.rows.map (fun ex => ex.id)).Nodup)
    (hpairs : ((cfgRes cfg).map (fun rn => (rn.1.ip, rn.2))).Nodup)
    (hcross : ∀ rn ∈ cfgRes cfg, ∀ ex ∈ store0.rows,
      ex.mac ≠ rn.1.mac → ¬(ex.ip = rn.1.ip ∧ ex.subnet = rn.2)) :
    (applyConfig store0 cfg).2.reservationsAdded =
      (cfgRes cfg).countP (newMacB store0.rows) ∧
    (applyConfig store0 cfg).2.reservationsUpdated =
      (cfgRes cfg).countP (updMacB store0.rows) ∧
    (applyConfig store0 cfg).2.reservationsDeleted =
      store0.rows.countP (pendPred (cfgRes cfg)) ∧
    (applyConfig store0 cfg).2.totalSubnets = cfg.subnets.length ∧
    (applyConfig store0 cfg).2.configReloaded = true ∧
    (applyConfig store0 cfg).1.rows =
      (store0.rows.filter (fun ex =>
        decide (∃ rn ∈ cfgRes cfg, rn.1.mac = ex.mac))).map
          (updForP (cfgRes cfg)) ++
      createdRows store0.rows (cfgRes cfg) store0.nextId := by
  have hinv0 : SyncInv store0.rows store0.nextId []
      { pending := store0.rows, store := store0, added := 0, updated := 0 } := by
    refine ⟨?_, rfl, rfl, ?_, rfl⟩
    · exact (List.filter_eq_self.mpr (fun a _ => by simp [pendPred])).symm
    · show store0.rows = store0.rows.map (updForP []) ++
        createdRows store0.rows [] store0.nextId
      rw [show createdRows store0.rows [] store0.nextId = [] from rfl,
        List.append_nil,
        map_eq_self_of_forall (fun ex _ => updForP_none (by simp))]
  have hfold := syncFold_inv store0.rows store0.nextId hstore hids hidnodup
    (cfgRes cfg) [] _ hinv0 (by simpa using hmacs) (by simpa using hpairs)
    (fun rn hrn => hcross rn hrn)
  rw [List.nil_append] at hfold
  obtain ⟨hpend, hadd, hupd, hrows, _⟩ := hfold
  unfold applyConfig
  dsimp only
  refine ⟨hadd, hupd, ?_, rfl, rfl, ?_⟩
  · show (List.foldl syncStep _ _).pending.length = _
    rw [hpend, List.countP_eq_length_filter]
  · show (List.foldl (fun (st : RStore) (ex : Reservation) =>
        st.DeleteReservation ex.id) _ _).rows = _
    rw [deleteFold_rows, hpend, hrows, List.filter_append]
    have hcreated : (createdRows store0.rows (cfgRes cfg) store0.nextId).filter
        (fun o => decide (∀ ex ∈ store0.rows.filter (pendPred (cfgRes cfg)),
          o.id ≠ ex.id)) =
        createdRows store0.rows (cfgRes cfg) store0.nextId := by
      apply List.filter_eq_self.mpr
      intro c hc
      apply decide_eq_true
      intro ex hex
      have h1 := hids ex (List.mem_of_mem_filter hex)
      have h2 := (createdRows_mem hc).1
      omega
    rw [hcreated, List.filter_map]
    congr 1
    congr 1
    apply List.filter_congr
    intro ex hex
    simp only [Function.comp_apply]
    apply decide_eq_decide.mpr
    constructor
    · intro hall
      by_contra hnone
      push_neg at hnone
      have hexpend : ex ∈ store0.rows.filter (pendPred (cfgRes cfg)) := by
        apply List.mem_filter.mpr
        exact ⟨hex, decide_eq_true (fun rn hrn => hnone rn hrn)⟩
      have := hall ex hexpend
      rw [updForP_id] at this
      exact absurd rfl this
    · rintro ⟨rn, hrn, hmacEq⟩ exP hexP
      rw [updForP_id]
      intro hid
      have hexPr : exP ∈ store0.rows := List.mem_of_mem_filter hexP
      have hee : ex = exP := List.inj_on_of_nodup_map hidnodup hex hexPr hid
      have hpp := (List.mem_filter.mp hexP).2
      simp only [pendPred, decide_eq_true_eq] at hpp
      exact hpp rn hrn (by rw [← hee]; exact hmacEq)

/-- Store of the C5 witness (scenario S6): reservations R1 and R2. -/
def rstoreW5 : RStore :=
  { rows := [{ id := 1, mac := "aa:aa:aa:aa:aa:01", ip := 10, hostname := [104],
               subnet := "10.0.0.0/24", description := "", tftpServer := "",
               bootFilename := "" },
             { id := 2, mac := "aa:aa:aa:aa:aa:02", ip := 11, hostname := [],
               subnet := "10.0.0.0/24", description := "", tftpServer := "",
               bootFilename := "" }],
    nextId := 3 }

/-- Configuration of the C5 witness: R1 with a changed hostname, plus a new
R3. -/
def cfgW5 : Config :=
  { subnets := [{ network := "10.0.0.0/24",
                  reservations :=
                    [{ mac := "aa:aa:aa:aa:aa:01", ip := 10, hostname := [105],
                       description := "", tftpServer := "", bootFilename := "" },
                     { mac := "aa:aa:aa:aa:aa:03", ip := 12, hostname := [],
                       description := "", tftpServer := "", bootFilename := "" }] }] }

/-- Witness for the amended C5 on scenario S6: one addition, one update,
one deletion, `total_subnets = 1`, `config_reloaded = true`. -/
theorem C5_witness :
    (applyConfig rstoreW5 cfgW5).2.reservationsAdded =
      (cfgRes cfgW5).countP (newMacB rstoreW5.rows) ∧
    (applyConfig rstoreW5 cfgW5).2.reservationsUpdated =
      (cfgRes cfgW5).countP (updMacB rstoreW5.rows) ∧
    (applyConfig rstoreW5 cfgW5).2.reservationsDeleted =
      rstoreW5.rows.countP (pendPred (cfgRes cfgW5)) ∧
    (applyConfig rstoreW5 cfgW5).2.totalSubnets = cfgW5.subnets.length ∧
    (applyConfig rstoreW5 cfgW5).2.configReloaded = true ∧
    (applyConfig rstoreW5 cfgW5).1.rows =
      (rstoreW5.rows.filter (fun ex =>
        decide (∃ rn ∈ cfgRes cfgW5, rn.1.mac = ex.mac))).map
          (updForP (cfgRes cfgW5)) ++
      createdRows rstoreW5.rows (cfgRes cfgW5) rstoreW5.nextId :=
  C5_reservation_diff rstoreW5 cfgW5 (by decide) (by decide) (by decide)
    (by decide) (by decide) (by decide)

end IronDHCP
